import Mathlib

/-
Verification development for the municipality data reconciliation script
(geoprocessamento/join_csv_to_shp.py).

The script joins a tabular CSV of yearly violence statistics onto a polygon
feature collection of municipalities.  We model the attribute tables of both
datasets as data frames over a small cell type (string, rational numeric, or
missing), and translate the join, normalization and reshaping functions of
the source file.  Geometry payloads are ordinary attribute cells here: the
script never inspects them, it only carries them through the joins.
-/

namespace TPIBD

/-- Cell values of a data frame: strings, rational numerics, or missing (NaN). -/
inductive Cell where
| str : String → Cell
| num : ℚ → Cell
| nan : Cell
deriving DecidableEq, Repr

/-- Recognizes numeric cells. -/
def Cell.isNum : Cell → Bool
  | Cell.num _ => true
  | _ => false

/-- An attribute row: an association list from column name to cell value. -/
abbrev Row := List (String × Cell)

/-- A data frame: an ordered list of column names and an ordered list of rows. -/
structure DFrame where
  cols : List String
  rows : List Row
deriving DecidableEq, Repr

/-- Reads the cell of a row at a column name; a missing entry reads as NaN. -/
def rowGet (r : Row) (c : String) : Cell :=
  match r.find? (fun p => p.1 == c) with
  | some p => p.2
  | none => Cell.nan

/-- Column assignment on one row: replaces the entries of an existing column,
or appends a new entry at the end, as pandas column assignment does. -/
def rowSet (r : Row) (n : String) (v : Cell) : Row :=
  if r.any (fun p => p.1 == n) then
    r.map (fun p => if p.1 == n then (n, v) else p)
  else r ++ [(n, v)]

/-- Column assignment on a whole frame, the new cell computed from each row. -/
def setCol (df : DFrame) (n : String) (f : Row → Cell) : DFrame :=
  { cols := if n ∈ df.cols then df.cols else df.cols ++ [n],
    rows := df.rows.map (fun r => rowSet r n (f r)) }

/-- Drops the named columns from a frame (a column absent from the frame is
silently ignored, as in the source drop loop). -/
def dropCols (df : DFrame) (names : List String) : DFrame :=
  { cols := df.cols.filter (fun c => decide (c ∉ names)),
    rows := df.rows.map (fun r => r.filter (fun p => decide (p.1 ∉ names))) }

/- ------------------------------------------------------------------ -/
/- String helpers shared by the identifier normalizations.             -/

/-- Keeps only the decimal digits of a string (str.replace with regex D). -/
def digitsOnly (s : String) : String := (s.toList.filter Char.isDigit).asString

/-- Left pad with zeros to the given width (python str.zfill on digit data). -/
def zfill (w : Nat) (s : String) : String :=
  (List.replicate (w - s.length) '0').asString ++ s

/-- First n characters of a string (python slice s[:n]). -/
def takeChars (n : Nat) (s : String) : String := (s.toList.take n).asString

/-- Models the pandas astype(str) rendering of a cell.  NaN renders as the
literal string nan; integral numerics render as their digit string, matching
the rendering of an int64 column.  Non integral numerics do not occur in the
identifier columns this development evaluates. -/
def cellAstype (c : Cell) : String :=
  match c with
  | Cell.str s => s
  | Cell.nan => "nan"
  | Cell.num q => if q.den = 1 then toString q.num else toString q

/-- Geometry side code normalization (preparar_codigos lines 174-181):
astype(str), strip non digits, zero fill to width 7, keep the first 6. -/
def normShpCode (c : Cell) : String := takeChars 6 (zfill 7 (digitsOnly (cellAstype c)))

/-- Tabular side code normalization (preparar_codigos lines 183-190):
astype(str), strip non digits, zero fill to width 6, keep the first 6. -/
def normCsvCode (c : Cell) : String := takeChars 6 (zfill 6 (digitsOnly (cellAstype c)))

/- ------------------------------------------------------------------ -/
/- Name normalization (normalizar_nome, lines 36-42).                  -/

/-- NFKD decomposition followed by dropping non ASCII code points, tabulated
per character for the accented Latin letters that occur in municipality
names: each accented letter decomposes to its base letter plus combining
marks, and the combining marks are non ASCII and are dropped; any other non
ASCII character is dropped entirely. -/
def asciiFold (c : Char) : List Char :=
  if c.toNat < 128 then [c] else
  match c with
  | 'á' => ['a'] | 'à' => ['a'] | 'â' => ['a'] | 'ã' => ['a'] | 'ä' => ['a']
  | 'é' => ['e'] | 'è' => ['e'] | 'ê' => ['e'] | 'ë' => ['e']
  | 'í' => ['i'] | 'ì' => ['i'] | 'î' => ['i'] | 'ï' => ['i']
  | 'ó' => ['o'] | 'ò' => ['o'] | 'ô' => ['o'] | 'õ' => ['o'] | 'ö' => ['o']
  | 'ú' => ['u'] | 'ù' => ['u'] | 'û' => ['u'] | 'ü' => ['u']
  | 'ç' => ['c']
  | 'Á' => ['A'] | 'À' => ['A'] | 'Â' => ['A'] | 'Ã' => ['A'] | 'Ä' => ['A']
  | 'É' => ['E'] | 'È' => ['E'] | 'Ê' => ['E'] | 'Ë' => ['E']
  | 'Í' => ['I'] | 'Ì' => ['I'] | 'Î' => ['I'] | 'Ï' => ['I']
  | 'Ó' => ['O'] | 'Ò' => ['O'] | 'Ô' => ['O'] | 'Õ' => ['O'] | 'Ö' => ['O']
  | 'Ú' => ['U'] | 'Ù' => ['U'] | 'Û' => ['U'] | 'Ü' => ['U']
  | 'Ç' => ['C']
  | _ => []

/-- Python str.title over one token: a letter is uppercased when the previous
character is not a letter, lowercased otherwise. -/
def pyTitleGo (prevAlpha : Bool) : List Char → List Char
  | [] => []
  | c :: rest =>
    (if c.isAlpha then (if prevAlpha then c.toLower else c.toUpper) else c)
      :: pyTitleGo c.isAlpha rest

/-- Python str.title on a character list. -/
def pyTitle (cs : List Char) : List Char := pyTitleGo false cs

/-- One step of the whitespace split fold: state is (finished tokens, token
being built from the right). -/
def pySplitStep (c : Char) (st : List (List Char) × List Char) :
    List (List Char) × List Char :=
  if c.isWhitespace then
    (if st.2.isEmpty then st.1 else st.2 :: st.1, [])
  else (st.1, c :: st.2)

/-- Python str.split with no arguments: split on whitespace runs, no empty
tokens. -/
def pySplit (cs : List Char) : List (List Char) :=
  let st := cs.foldr pySplitStep ([], [])
  if st.2.isEmpty then st.1 else st.2 :: st.1

/-- Embeds normalizar_nome (lines 36-42): missing values map to the empty
string; otherwise NFKD decompose and drop non ASCII, split on whitespace,
title case each token, rejoin with single spaces. -/
def normalizar_nome (valor : Cell) : String :=
  match valor with
  | Cell.nan => ""
  | v =>
    let folded := (cellAstype v).toList.flatMap asciiFold
    String.intercalate " " ((pySplit folded).map (fun t => (pyTitle t).asString))

/- ------------------------------------------------------------------ -/
/- Schema detection (detect_code_column / detect_name_column).         -/

/-- Substring containment test (python in operator on strings). -/
def containsSub (s pat : String) : Bool :=
  s.toList.tails.any (fun t => pat.toList.isPrefixOf t)

/-- Lowercasing as python str.lower, character by character. -/
def lowerStr (s : String) : String := (s.toList.map Char.toLower).asString

/-- Candidate substrings for a code column, in priority order (lines 47-58). -/
def code_candidates : List String :=
  ["municipio_cod", "codigo_ibge", "cod_ibge", "cod_mun", "cd_mun",
   "cd_municip", "cd_ibge", "codigo", "ibge", "cod"]

/-- Candidate substrings for a name column, in priority order (lines 69-76). -/
def name_candidates : List String :=
  ["municipio_nome", "nome", "municipio", "nm_mun", "nm_municip", "name"]

/-- Scans candidates in priority order and columns in original order; the
first column whose lowercased name contains the candidate wins. -/
def findByCandidates (cands : List String) (colunas : List String) : Option String :=
  match cands with
  | [] => none
  | alvo :: rest =>
    match colunas.find? (fun c => containsSub (lowerStr c) alvo) with
    | some c => some c
    | none => findByCandidates rest colunas

/-- Embeds detect_code_column (lines 45-64). -/
def detect_code_column (colunas : List String) : Option String :=
  findByCandidates code_candidates colunas

/-- Embeds detect_name_column (lines 67-82). -/
def detect_name_column (colunas : List String) : Option String :=
  findByCandidates name_candidates colunas

/- ------------------------------------------------------------------ -/
/- Sorting and deduplication primitives used by groupby and pivot.     -/

/-- Insertion into a list sorted by a boolean comparison. -/
def insertLe {α : Type} (le : α → α → Bool) (a : α) : List α → List α
  | [] => [a]
  | b :: l => if le a b then a :: b :: l else b :: insertLe le a l

/-- Insertion sort by a boolean comparison (models the ascending key sort of
pandas groupby, pivot_table and sorted). -/
def sortLe {α : Type} (le : α → α → Bool) : List α → List α
  | [] => []
  | a :: l => insertLe le a (sortLe le l)

/-- Rank used to order cells of different kinds; within a run all keys being
sorted have one kind, so only the within kind orders are observable. -/
def cellRank : Cell → Nat
  | Cell.num _ => 0
  | Cell.str _ => 1
  | Cell.nan => 2

/-- Lexicographic comparison of character lists by code point, the string
order used by python and pandas sorts. -/
def charsLeB : List Char → List Char → Bool
  | [], _ => true
  | _ :: _, [] => false
  | a :: as, b :: bs => if a = b then charsLeB as bs else decide (a.toNat < b.toNat)

/-- String comparison by code point. -/
def strLeB (s t : String) : Bool := charsLeB s.toList t.toList

/-- Total comparison on cells: numerics by rational order, strings by
lexicographic order, mixed kinds by rank. -/
def cellLeB (a b : Cell) : Bool :=
  match a, b with
  | Cell.num x, Cell.num y => decide (x ≤ y)
  | Cell.str x, Cell.str y => strLeB x y
  | _, _ => decide (cellRank a ≤ cellRank b)

/-- Lexicographic comparison on composite group keys. -/
def keyLeB : List Cell → List Cell → Bool
  | [], _ => true
  | _ :: _, [] => false
  | a :: as, b :: bs => if a = b then keyLeB as bs else cellLeB a b

/-- Column order produced by sort_index(axis=1, level=1): primary key the
year (level 1), then the metric name (the remaining level). -/
def pairLeB (p q : String × Cell) : Bool :=
  if p.2 = q.2 then strLeB p.1 q.1 else cellLeB p.2 q.2

/-- Distinct values in order of first occurrence, with an accumulator of the
values already seen. -/
def distinctFirstGo {α : Type} [DecidableEq α] (seen : List α) : List α → List α
  | [] => []
  | a :: l => if a ∈ seen then distinctFirstGo seen l else a :: distinctFirstGo (a :: seen) l

/-- Distinct values in order of first occurrence (pandas unique and the seen
set of drop_duplicates). -/
def distinctFirst {α : Type} [DecidableEq α] (l : List α) : List α :=
  distinctFirstGo [] l

/- ------------------------------------------------------------------ -/
/- Grouped aggregation (pandas groupby(...).agg(...)).                 -/

/-- Reducers occurring in the script: sum, mean, first. -/
inductive AggFn where
| sum
| mean
| first
deriving DecidableEq, Repr

/-- Numeric values among a list of cells (missing values are skipped, the
skipna behavior of the pandas reducers). -/
def numsOf (cs : List Cell) : List ℚ :=
  cs.filterMap (fun c => match c with | Cell.num q => some q | _ => none)

/-- First non missing cell of a list, NaN when none (groupby first). -/
def firstNonNan : List Cell → Cell
  | [] => Cell.nan
  | c :: rest => if c = Cell.nan then firstNonNan rest else c

/-- Applies one reducer to the cells of one group: sum of the numerics (0 on
an all missing group), their mean (NaN on an all missing group), or the
first non missing value. -/
def applyAgg : AggFn → List Cell → Cell
  | AggFn.sum, cs => Cell.num (numsOf cs).sum
  | AggFn.mean, cs =>
    let xs := numsOf cs
    if xs.isEmpty then Cell.nan else Cell.num (xs.sum / (xs.length : ℚ))
  | AggFn.first, cs => firstNonNan cs

/-- Group key of a row: its cells at the grouping columns. -/
def keyOf (keys : List String) (r : Row) : List Cell := keys.map (fun k => rowGet r k)

/-- A row participates in a groupby only when no grouping cell is missing
(pandas groupby dropna). -/
def validKey (keys : List String) (r : Row) : Bool :=
  keys.all (fun k => decide (rowGet r k ≠ Cell.nan))

/-- Embeds df.groupby(keys, as_index=False).agg(aggs): rows with a missing
key are dropped, group keys are sorted ascending, and the output carries the
grouping columns followed by one reduced column per aggregation entry. -/
def groupbyAgg (df : DFrame) (keys : List String) (aggs : List (String × AggFn)) :
    DFrame :=
  let valid := df.rows.filter (validKey keys)
  let ks := sortLe keyLeB (distinctFirst (valid.map (keyOf keys)))
  { cols := keys ++ aggs.map (fun a => a.1),
    rows := ks.map (fun kv =>
      let grp := valid.filter (fun r => decide (keyOf keys r = kv))
      keys.zip kv ++
        aggs.map (fun a => (a.1, applyAgg a.2 (grp.map (fun r => rowGet r a.1))))) }

/- ------------------------------------------------------------------ -/
/- Wide pivot (pivotar_dados_por_ano, lines 108-146).                  -/

/-- Static configuration of the script (lines 29-31). -/
def YEAR_COLUMN : String := "ano"

/-- Metric columns configured at the top of the script. -/
def METRIC_COLUMNS : List String :=
  ["total_violencia_domestica", "feminicidios", "taxa_feminicidio"]

/-- Metrics reduced by mean instead of sum. -/
def METRIC_MEAN : List String := ["taxa_feminicidio"]

/-- Python int() truncates toward zero; years are integral in practice. -/
def cellIntStr (c : Cell) : String :=
  match c with
  | Cell.num q => toString (Int.tdiv q.num (q.den : Int))
  | Cell.str s => s
  | Cell.nan => "nan"

/-- Renamed pivot column for a (metric, year) pair (line 139). -/
def pivotColName (p : String × Cell) : String := p.1 ++ "_" ++ cellIntStr p.2

/-- Cell of the pivot at one group for one (metric, year) pair: first non
missing metric value among the group rows carrying that year. -/
def aggFirstAt (rows : List Row) (ccol : String) (y : Cell) (m : String) : Cell :=
  firstNonNan ((rows.filter (fun r => decide (rowGet r ccol = y))).map
    (fun r => rowGet r m))

/-- Embeds the pivot chain of lines 129-140: pivot_table(index, columns=year,
values=metrics, aggfunc=first) with its default dropna (a column whose
entries are all missing is not emitted), then sort_index(axis=1, level=1),
then the rename to metric_year, then reset_index. -/
def pivotSortedRenamed (df : DFrame) (index : List String) (ccol : String)
    (values : List String) : DFrame :=
  let valid := df.rows.filter (validKey (index ++ [ccol]))
  let ks := sortLe keyLeB (distinctFirst (valid.map (keyOf index)))
  let ys := sortLe cellLeB (distinctFirst (valid.map (fun r => rowGet r ccol)))
  let pairs0 := values.flatMap (fun m => ys.map (fun y => (m, y)))
  let pairs1 := pairs0.filter (fun p =>
    valid.any (fun r => decide (rowGet r ccol = p.2) && decide (rowGet r p.1 ≠ Cell.nan)))
  let pairs := sortLe pairLeB pairs1
  { cols := index ++ pairs.map pivotColName,
    rows := ks.map (fun kv =>
      let grp := valid.filter (fun r => decide (keyOf index r = kv))
      index.zip kv ++
        pairs.map (fun p => (pivotColName p, aggFirstAt grp ccol p.2 p.1))) }

/-- Sorted distinct non missing year values (line 141 and line 112). -/
def anosDisponiveis (df : DFrame) : List Cell :=
  sortLe cellLeB (distinctFirst
    ((df.rows.map (fun r => rowGet r YEAR_COLUMN)).filter
      (fun c => decide (c ≠ Cell.nan))))

/-- Index columns of the wide pivot (lines 122-124): the code column, and the
name column when the table carries one. -/
def pivotIndexCols (df : DFrame) : List String :=
  "municipio_cod" :: (if "municipio_nome" ∈ df.cols then ["municipio_nome"] else [])

/-- Embeds pivotar_dados_por_ano (lines 108-146): no op when the year or code
column is absent, no op when no configured metric column is present, and
otherwise the groupby plus pivot chain producing one row per municipality
with metric_year columns. -/
def pivotar_dados_por_ano (df : DFrame) : DFrame × Option (List Cell) :=
  if YEAR_COLUMN ∈ df.cols ∧ "municipio_cod" ∈ df.cols then
    let metrics := METRIC_COLUMNS.filter (fun m => decide (m ∈ df.cols))
    if metrics.isEmpty then (df, some (anosDisponiveis df))
    else
      let index_cols := pivotIndexCols df
      let agrupado := groupbyAgg df (index_cols ++ [YEAR_COLUMN])
        (metrics.map (fun m => (m, if m ∈ METRIC_MEAN then AggFn.mean else AggFn.sum)))
      (pivotSortedRenamed agrupado index_cols YEAR_COLUMN metrics,
        some (anosDisponiveis df))
  else
    (df, if YEAR_COLUMN ∈ df.cols then some (anosDisponiveis df) else none)

/- ------------------------------------------------------------------ -/
/- Single year aggregation (agrupar_por_municipio, lines 149-166).     -/

/-- A column is numeric when every cell is numeric or missing, the shape of a
pandas numeric dtype column. -/
def isNumericCol (df : DFrame) (c : String) : Bool :=
  df.rows.all (fun r =>
    match rowGet r c with
    | Cell.num _ => true
    | Cell.nan => true
    | _ => false)

/-- Aggregation dictionary built by agrupar_por_municipio (lines 155-162):
skip the code and year columns, municipality name by first, numeric columns
by mean when configured for mean and sum otherwise, others dropped. -/
def aggSpec (df : DFrame) (csv_code_col : String) : List (String × AggFn) :=
  df.cols.filterMap (fun col =>
    if col = csv_code_col ∨ col = YEAR_COLUMN then none
    else if col = "municipio_nome" then some (col, AggFn.first)
    else if isNumericCol df col then
      some (col, if col ∈ METRIC_MEAN then AggFn.mean else AggFn.sum)
    else none)

/-- Rows with a first seen value at the subset column kept, later duplicates
dropped (pandas drop_duplicates(subset=[c])). -/
def dropDupByGo (c : String) (seen : List Cell) : List Row → List Row
  | [] => []
  | r :: rest =>
    if rowGet r c ∈ seen then dropDupByGo c seen rest
    else r :: dropDupByGo c (rowGet r c :: seen) rest

/-- Embeds agrupar_por_municipio (lines 149-166): unchanged copy when the
code column is absent; duplicates dropped by the code column when nothing is
aggregatable; grouped aggregation otherwise. -/
def agrupar_por_municipio (df : DFrame) (csv_code_col : String) : DFrame :=
  if csv_code_col ∈ df.cols then
    let aggs := aggSpec df csv_code_col
    if aggs.isEmpty then { cols := df.cols, rows := dropDupByGo csv_code_col [] df.rows }
    else groupbyAgg df [csv_code_col] aggs
  else df

/- ------------------------------------------------------------------ -/
/- Left joins (preparar_codigos and merge_por_nome).                   -/

/-- Row block of a left merge on distinct key columns: every left row is
emitted once per matching right row, or once with all right columns missing
when no right row matches. -/
def mergeRows (lrows rrows : List Row) (lk rk : String) (rpad : List String) :
    List Row :=
  lrows.flatMap (fun lr =>
    let ms := rrows.filter (fun rr => decide (rowGet rr rk = rowGet lr lk))
    if ms.isEmpty then [lr ++ rpad.map (fun c => (c, Cell.nan))]
    else ms.map (fun rr => lr ++ rr))

/-- Embeds gdf.merge(df, left_on, right_on, how=left) for frames with
disjoint column names apart from the two key columns. -/
def leftMergeOn (l r : DFrame) (lk rk : String) : DFrame :=
  { cols := l.cols ++ r.cols, rows := mergeRows l.rows r.rows lk rk r.cols }

/-- Row block of a left merge on one shared key column: the key entries of
the right rows are not repeated in the output. -/
def mergeSharedRows (lrows rrows : List Row) (k : String) (rpad : List String) :
    List Row :=
  lrows.flatMap (fun lr =>
    let ms := rrows.filter (fun rr => decide (rowGet rr k = rowGet lr k))
    if ms.isEmpty then [lr ++ rpad.map (fun c => (c, Cell.nan))]
    else ms.map (fun rr => lr ++ rr.filter (fun p => decide (p.1 ≠ k))))

/-- Embeds gdf.merge(df, on=k, how=left): the shared key column appears once,
taken from the left side. -/
def leftMergeShared (l r : DFrame) (k : String) : DFrame :=
  { cols := l.cols ++ r.cols.filter (fun c => decide (c ≠ k)),
    rows := mergeSharedRows l.rows r.rows k (r.cols.filter (fun c => decide (c ≠ k))) }

/-- Transient helper columns created and then dropped by preparar_codigos. -/
def TRANSIENT_CODE_COLS : List String :=
  ["__shp_code_digits", "__shp_code6", "__csv_code_digits", "__csv_code6"]

/-- First n characters of a string cell; non strings become missing
(the str accessor of pandas). -/
def strTakeCell (n : Nat) (c : Cell) : Cell :=
  match c with
  | Cell.str s => Cell.str (takeChars n s)
  | _ => Cell.nan

/-- Embeds preparar_codigos (lines 169-204): build the digit and 6 digit key
columns on both sides, left join the feature frame onto the table, count the
rows whose total_violencia_domestica is non missing (the printed match
count), and drop the transient key columns.  Returns the joined frame and
the match count. -/
def preparar_codigos (gdf df : DFrame) (shp_code_col csv_code_col : String) :
    DFrame × Nat :=
  let g1 := setCol gdf "__shp_code_digits"
    (fun r => Cell.str (zfill 7 (digitsOnly (cellAstype (rowGet r shp_code_col)))))
  let g2 := setCol g1 "__shp_code6" (fun r => strTakeCell 6 (rowGet r "__shp_code_digits"))
  let d1 := setCol df "__csv_code_digits"
    (fun r => Cell.str (zfill 6 (digitsOnly (cellAstype (rowGet r csv_code_col)))))
  let d2 := setCol d1 "__csv_code6" (fun r => strTakeCell 6 (rowGet r "__csv_code_digits"))
  let merged := leftMergeOn g2 d2 "__shp_code6" "__csv_code6"
  let casamentos :=
    if "total_violencia_domestica" ∈ merged.cols then
      merged.rows.countP (fun r => decide (rowGet r "total_violencia_domestica" ≠ Cell.nan))
    else 0
  (dropCols merged TRANSIENT_CODE_COLS, casamentos)

/-- Embeds merge_por_nome (lines 207-215): normalized name key on both sides,
left join on the shared key column, key column dropped. -/
def merge_por_nome (gdf df : DFrame) (shp_name_col : String) : DFrame :=
  let g := setCol gdf "__nome_norm" (fun r => Cell.str (normalizar_nome (rowGet r shp_name_col)))
  let d := setCol df "__nome_norm" (fun r => Cell.str (normalizar_nome (rowGet r "municipio_nome")))
  let merged := leftMergeShared g d "__nome_norm"
  dropCols merged ["__nome_norm"]

/-- Joined frame built inside preparar_codigos before the transient key
columns are dropped (a named subterm of preparar_codigos). -/
def prepMerged (gdf df : DFrame) (shp_code_col csv_code_col : String) : DFrame :=
  leftMergeOn
    (setCol (setCol gdf "__shp_code_digits"
      (fun r => Cell.str (zfill 7 (digitsOnly (cellAstype (rowGet r shp_code_col))))))
      "__shp_code6" (fun r => strTakeCell 6 (rowGet r "__shp_code_digits")))
    (setCol (setCol df "__csv_code_digits"
      (fun r => Cell.str (zfill 6 (digitsOnly (cellAstype (rowGet r csv_code_col))))))
      "__csv_code6" (fun r => strTakeCell 6 (rowGet r "__csv_code_digits")))
    "__shp_code6" "__csv_code6"

/-- Joined frame built inside merge_por_nome before the key column is
dropped (a named subterm of merge_por_nome). -/
def nomeMerged (gdf df : DFrame) (shp_name_col : String) : DFrame :=
  leftMergeShared
    (setCol gdf "__nome_norm" (fun r => Cell.str (normalizar_nome (rowGet r shp_name_col))))
    (setCol df "__nome_norm" (fun r => Cell.str (normalizar_nome (rowGet r "municipio_nome"))))
    "__nome_norm"

/- ------------------------------------------------------------------ -/
/- Reconciliation branch of main (lines 229-247).                      -/

/-- Tabular code column choice of main line 230: the exact well known name
when present, the heuristic detector otherwise. -/
def csvCodeColOf (df : DFrame) : Option String :=
  if "municipio_cod" ∈ df.cols then some "municipio_cod" else detect_code_column df.cols

/-- Fatal message printed when neither join key is usable (line 242). -/
def NO_KEY_MSG : String :=
  "Não foi possível detectar coluna de código nem de nome para reunir os dados."

/-- Embeds the reconciliation branch of main (lines 229-247): the code join
when both code columns are detected; otherwise the name join when a feature
side name column is detected and the table has municipio_nome; otherwise the
fatal no usable join key condition. -/
def reconcile (gdf df : DFrame) : Except String DFrame :=
  match detect_code_column gdf.cols, csvCodeColOf df with
  | some sc, some cc => Except.ok (preparar_codigos gdf df sc cc).1
  | _, _ =>
    match detect_name_column gdf.cols with
    | none => Except.error NO_KEY_MSG
    | some nc =>
      if "municipio_nome" ∈ df.cols then Except.ok (merge_por_nome gdf df nc)
      else Except.error NO_KEY_MSG

/- ------------------------------------------------------------------ -/
/- Lemmas about rows and column access.                                -/

theorem rowGet_cons (p : String × Cell) (r : Row) (c : String) :
    rowGet (p :: r) c = if p.1 == c then p.2 else rowGet r c := by
  by_cases h : (p.1 == c) = true
  · simp [rowGet, List.find?_cons_of_pos, h]
  · simp only [Bool.not_eq_true] at h
    simp [rowGet, List.find?_cons_of_neg, h]

theorem rowGet_cons_ne (p : String × Cell) (r : Row) (c : String) (h : p.1 ≠ c) :
    rowGet (p :: r) c = rowGet r c := by
  rw [rowGet_cons, if_neg]
  simp [h]

theorem rowGet_filter_of_not_mem (r : Row) (names : List String) (c : String)
    (h : c ∉ names) :
    rowGet (r.filter (fun p => decide (p.1 ∉ names))) c = rowGet r c := by
  induction r with
  | nil => rfl
  | cons p r ih =>
    by_cases hp : p.1 ∈ names
    · have hne : p.1 ≠ c := fun e => h (e ▸ hp)
      rw [List.filter_cons_of_neg (by simpa using hp), rowGet_cons_ne _ _ _ hne, ih]
    · rw [List.filter_cons_of_pos (by simpa using hp), rowGet_cons, rowGet_cons, ih]

theorem rowGet_map_overwrite (r : Row) (n : String) (v : Cell)
    (h : r.any (fun p => p.1 == n) = true) :
    rowGet (r.map (fun p => if p.1 == n then (n, v) else p)) n = v := by
  induction r with
  | nil => cases h
  | cons p r ih =>
    by_cases hp : (p.1 == n) = true
    · simp only [List.map_cons]
      rw [if_pos hp, rowGet_cons]
      simp
    · have h' : r.any (fun p => p.1 == n) = true := by
        rcases List.any_eq_true.1 h with ⟨q, hq, hqn⟩
        rcases List.mem_cons.1 hq with hq1 | hq2
        · exact absurd (hq1 ▸ hqn) (by simpa using hp)
        · exact List.any_eq_true.2 ⟨q, hq2, hqn⟩
      simp only [List.map_cons]
      rw [if_neg (by simpa using hp), rowGet_cons_ne _ _ _ (by simpa using hp), ih h']

theorem rowGet_map_overwrite_ne (r : Row) (n : String) (v : Cell) (m : String)
    (h : m ≠ n) :
    rowGet (r.map (fun p => if p.1 == n then (n, v) else p)) m = rowGet r m := by
  induction r with
  | nil => rfl
  | cons p r ih =>
    by_cases hp : (p.1 == n) = true
    · have hpn : p.1 = n := by simpa using hp
      simp only [List.map_cons]
      rw [if_pos hp, rowGet_cons_ne (n, v) _ m (fun e => h e.symm),
        rowGet_cons_ne p r m (fun e => h ((e.symm.trans hpn).symm).symm), ih]
    · simp only [List.map_cons]
      rw [if_neg (by simpa using hp), rowGet_cons, rowGet_cons]
      by_cases hpm : (p.1 == m) = true
      · rw [if_pos hpm, if_pos hpm]
      · rw [if_neg (by simpa using hpm), if_neg (by simpa using hpm), ih]

theorem rowGet_append_single_self (r : Row) (n : String) (v : Cell)
    (h : r.any (fun p => p.1 == n) = false) :
    rowGet (r ++ [(n, v)]) n = v := by
  induction r with
  | nil => simp [rowGet_cons]
  | cons p r ih =>
    rw [List.any_cons, Bool.or_eq_false_iff] at h
    rw [List.cons_append, rowGet_cons_ne _ _ _ (by simpa using h.1), ih h.2]

theorem rowGet_append_single_ne (r : Row) (n : String) (v : Cell) (m : String)
    (h : m ≠ n) :
    rowGet (r ++ [(n, v)]) m = rowGet r m := by
  induction r with
  | nil =>
    simp only [List.nil_append]
    rw [rowGet_cons_ne (n, v) [] m (fun e => h e.symm)]
  | cons p r ih =>
    rw [List.cons_append, rowGet_cons, rowGet_cons]
    by_cases hpm : (p.1 == m) = true
    · rw [if_pos hpm, if_pos hpm]
    · rw [if_neg (by simpa using hpm), if_neg (by simpa using hpm), ih]

theorem rowGet_rowSet_self (r : Row) (n : String) (v : Cell) :
    rowGet (rowSet r n v) n = v := by
  unfold rowSet
  by_cases ha : r.any (fun p => p.1 == n) = true
  · rw [if_pos ha]
    exact rowGet_map_overwrite r n v ha
  · rw [if_neg ha]
    exact rowGet_append_single_self r n v (Bool.not_eq_true _ ▸ eq_false_of_ne_true ha)

theorem rowGet_rowSet_ne (r : Row) (n : String) (v : Cell) (m : String) (h : m ≠ n) :
    rowGet (rowSet r n v) m = rowGet r m := by
  unfold rowSet
  by_cases ha : r.any (fun p => p.1 == n) = true
  · rw [if_pos ha]
    exact rowGet_map_overwrite_ne r n v m h
  · rw [if_neg ha]
    exact rowGet_append_single_ne r n v m h

/- ------------------------------------------------------------------ -/
/- Lemmas about left merges and key uniqueness.                        -/

theorem length_filter_le_one_of_nodup_map {α β : Type} [DecidableEq β]
    (l : List α) (f : α → β) (h : (l.map f).Nodup) (v : β) :
    (l.filter (fun x => decide (f x = v))).length ≤ 1 := by
  induction l with
  | nil => simp
  | cons a l ih =>
    rw [List.map_cons, List.nodup_cons] at h
    by_cases hv : f a = v
    · rw [List.filter_cons_of_pos (by simpa using hv)]
      have : l.filter (fun x => decide (f x = v)) = [] := by
        apply List.filter_eq_nil_iff.2
        intro x hx
        simp only [decide_eq_true_eq]
        intro e
        exact h.1 (List.mem_map.2 ⟨x, hx, e.trans hv.symm⟩)
      rw [this]
      simp
    · rw [List.filter_cons_of_neg (by simpa using hv)]
      exact ih h.2

theorem length_flatMap_of_forall_one {α β : Type} (L : List α) (h : α → List β)
    (hone : ∀ a ∈ L, (h a).length = 1) : (L.flatMap h).length = L.length := by
  induction L with
  | nil => rfl
  | cons a L ih =>
    rw [List.flatMap_cons, List.length_append, hone a (List.mem_cons_self a L),
      ih (fun x hx => hone x (List.mem_cons_of_mem a hx)), List.length_cons,
      Nat.add_comm]

theorem length_mergeRows_of_nodup (lrows rrows : List Row) (lk rk : String)
    (rpad : List String)
    (h : (rrows.map (fun rr => rowGet rr rk)).Nodup) :
    (mergeRows lrows rrows lk rk rpad).length = lrows.length := by
  apply length_flatMap_of_forall_one
  intro lr _
  have hle := length_filter_le_one_of_nodup_map rrows (fun rr => rowGet rr rk) h
    (rowGet lr lk)
  by_cases he : (rrows.filter (fun rr => decide (rowGet rr rk = rowGet lr lk))).isEmpty = true
  · rw [if_pos he]
    rfl
  · rw [if_neg he, List.length_map]
    have h1 : rrows.filter (fun rr => decide (rowGet rr rk = rowGet lr lk)) ≠ [] := by
      intro e
      rw [e] at he
      exact he rfl
    have h2 := List.length_pos.2 h1
    omega

/- ------------------------------------------------------------------ -/
/- Lemmas about sorting and first occurrence deduplication.            -/

theorem perm_insertLe {α : Type} (le : α → α → Bool) (a : α) (l : List α) :
    (insertLe le a l).Perm (a :: l) := by
  induction l with
  | nil => exact List.Perm.refl _
  | cons b l ih =>
    unfold insertLe
    by_cases h : le a b = true
    · rw [if_pos h]
    · rw [if_neg h]
      exact (ih.cons b).trans (List.Perm.swap a b l)

theorem perm_sortLe {α : Type} (le : α → α → Bool) (l : List α) :
    (sortLe le l).Perm l := by
  induction l with
  | nil => exact List.Perm.refl _
  | cons a l ih =>
    exact (perm_insertLe le a (sortLe le l)).trans (ih.cons a)

theorem mem_sortLe {α : Type} (le : α → α → Bool) (l : List α) (x : α) :
    x ∈ sortLe le l ↔ x ∈ l :=
  (perm_sortLe le l).mem_iff

theorem length_sortLe {α : Type} (le : α → α → Bool) (l : List α) :
    (sortLe le l).length = l.length :=
  (perm_sortLe le l).length_eq

theorem nodup_sortLe {α : Type} (le : α → α → Bool) (l : List α) :
    (sortLe le l).Nodup ↔ l.Nodup :=
  (perm_sortLe le l).nodup_iff

theorem pairwise_insertLe {α : Type} (le : α → α → Bool)
    (htot : ∀ a b, le a b = true ∨ le b a = true)
    (htrans : ∀ a b c, le a b = true → le b c = true → le a c = true)
    (a : α) (l : List α) (hl : l.Pairwise (fun x y => le x y = true)) :
    (insertLe le a l).Pairwise (fun x y => le x y = true) := by
  induction l with
  | nil => simp [insertLe]
  | cons b l ih =>
    rcases List.pairwise_cons.1 hl with ⟨hb, hl2⟩
    unfold insertLe
    by_cases h : le a b = true
    · rw [if_pos h]
      refine List.pairwise_cons.2 ⟨?_, hl⟩
      intro x hx
      rcases List.mem_cons.1 hx with rfl | hx
      · exact h
      · exact htrans a b x h (hb x hx)
    · rw [if_neg h]
      refine List.pairwise_cons.2 ⟨?_, ih hl2⟩
      intro x hx
      rcases List.mem_cons.1 ((perm_insertLe le a l).mem_iff.1 hx) with hxa | hx
      · rw [hxa]
        exact (htot a b).resolve_left h
      · exact hb x hx

theorem pairwise_sortLe {α : Type} (le : α → α → Bool)
    (htot : ∀ a b, le a b = true ∨ le b a = true)
    (htrans : ∀ a b c, le a b = true → le b c = true → le a c = true)
    (l : List α) :
    (sortLe le l).Pairwise (fun x y => le x y = true) := by
  induction l with
  | nil => simp [sortLe]
  | cons a l ih => exact pairwise_insertLe le htot htrans a (sortLe le l) ih

theorem mem_distinctFirstGo {α : Type} [DecidableEq α] (seen l : List α) (x : α) :
    x ∈ distinctFirstGo seen l ↔ x ∈ l ∧ x ∉ seen := by
  induction l generalizing seen with
  | nil => simp [distinctFirstGo]
  | cons a l ih =>
    unfold distinctFirstGo
    by_cases h : a ∈ seen
    · rw [if_pos h, ih seen]
      constructor
      · rintro ⟨hx, hs⟩
        exact ⟨List.mem_cons_of_mem a hx, hs⟩
      · rintro ⟨hx, hs⟩
        rcases List.mem_cons.1 hx with rfl | hx
        · exact absurd h hs
        · exact ⟨hx, hs⟩
    · rw [if_neg h]
      constructor
      · intro hx
        rcases List.mem_cons.1 hx with rfl | hx
        · exact ⟨List.mem_cons_self x l, h⟩
        · rcases (ih (a :: seen)).1 hx with ⟨h1, h2⟩
          exact ⟨List.mem_cons_of_mem a h1,
            fun hs => h2 (List.mem_cons_of_mem a hs)⟩
      · rintro ⟨hx, hs⟩
        by_cases hxa : x = a
        · exact hxa ▸ List.mem_cons_self a _
        · rcases List.mem_cons.1 hx with rfl | hx
          · exact absurd rfl hxa
          · exact List.mem_cons_of_mem a ((ih (a :: seen)).2
              ⟨hx, fun hm => (List.mem_cons.1 hm).elim hxa hs⟩)

theorem nodup_distinctFirstGo {α : Type} [DecidableEq α] (seen l : List α) :
    (distinctFirstGo seen l).Nodup := by
  induction l generalizing seen with
  | nil => simp [distinctFirstGo]
  | cons a l ih =>
    unfold distinctFirstGo
    by_cases h : a ∈ seen
    · rw [if_pos h]
      exact ih seen
    · rw [if_neg h]
      refine List.nodup_cons.2 ⟨?_, ih (a :: seen)⟩
      intro hm
      exact ((mem_distinctFirstGo (a :: seen) l a).1 hm).2 (List.mem_cons_self a seen)

theorem mem_distinctFirst {α : Type} [DecidableEq α] (l : List α) (x : α) :
    x ∈ distinctFirst l ↔ x ∈ l := by
  unfold distinctFirst
  rw [mem_distinctFirstGo]
  simp

theorem nodup_distinctFirst {α : Type} [DecidableEq α] (l : List α) :
    (distinctFirst l).Nodup :=
  nodup_distinctFirstGo [] l

/- ------------------------------------------------------------------ -/
/- Totality and transitivity of the cell comparison.                   -/

theorem char_eq_of_toNat_eq {a b : Char} (h : a.toNat = b.toNat) : a = b :=
  Char.eq_of_val_eq (UInt32.eq_of_toBitVec_eq (BitVec.eq_of_toNat_eq h))

theorem charsLeB_total : ∀ (s t : List Char), charsLeB s t = true ∨ charsLeB t s = true
  | [], _ => Or.inl rfl
  | _ :: _, [] => Or.inr rfl
  | a :: as, b :: bs => by
    by_cases hab : a = b
    · subst hab
      unfold charsLeB
      rw [if_pos rfl, if_pos rfl]
      exact charsLeB_total as bs
    · unfold charsLeB
      rw [if_neg hab, if_neg (fun e => hab e.symm)]
      have hne : a.toNat ≠ b.toNat := fun e => hab (char_eq_of_toNat_eq e)
      rcases Nat.lt_or_ge a.toNat b.toNat with h | h
      · exact Or.inl (decide_eq_true h)
      · exact Or.inr (decide_eq_true (Nat.lt_of_le_of_ne h (fun e => hne e.symm)))

theorem charsLeB_trans : ∀ (s t u : List Char),
    charsLeB s t = true → charsLeB t u = true → charsLeB s u = true
  | [], _, _, _, _ => rfl
  | _ :: _, [], _, h1, _ => by cases h1
  | _ :: _, _ :: _, [], _, h2 => by cases h2
  | a :: as, b :: bs, c :: cs, h1, h2 => by
    by_cases hab : a = b <;> by_cases hbc : b = c
    · subst hab; subst hbc
      unfold charsLeB at h1 h2 ⊢
      rw [if_pos rfl] at h1 h2 ⊢
      exact charsLeB_trans as bs cs h1 h2
    · subst hab
      unfold charsLeB at h2 ⊢
      rw [if_neg hbc] at h2 ⊢
      exact h2
    · subst hbc
      unfold charsLeB at h1 ⊢
      rw [if_neg hab] at h1 ⊢
      exact h1
    · unfold charsLeB at h1 h2 ⊢
      rw [if_neg hab] at h1
      rw [if_neg hbc] at h2
      have hlt1 := of_decide_eq_true h1
      have hlt2 := of_decide_eq_true h2
      have hac : a ≠ c := by
        intro e
        subst e
        exact Nat.lt_irrefl _ (Nat.lt_trans hlt1 hlt2)
      rw [if_neg hac]
      exact decide_eq_true (Nat.lt_trans hlt1 hlt2)

theorem cellLeB_total (a b : Cell) : cellLeB a b = true ∨ cellLeB b a = true := by
  rcases a with sa | qa | _ <;> rcases b with sb | qb | _ <;>
    simp only [cellLeB, cellRank] <;>
    first
    | exact charsLeB_total sa.toList sb.toList
    | (rcases le_total qa qb with h | h
       · exact Or.inl (decide_eq_true h)
       · exact Or.inr (decide_eq_true h))
    | simp

theorem cellLeB_trans (a b c : Cell) (h1 : cellLeB a b = true)
    (h2 : cellLeB b c = true) : cellLeB a c = true := by
  rcases a with sa | qa | _ <;> rcases b with sb | qb | _ <;> rcases c with sc | qc | _ <;>
    simp only [cellLeB, cellRank] at h1 h2 ⊢ <;>
    first
    | exact charsLeB_trans sa.toList sb.toList sc.toList h1 h2
    | exact decide_eq_true (le_trans (of_decide_eq_true h1) (of_decide_eq_true h2))
    | rfl
    | omega
    | simp_all

/- ------------------------------------------------------------------ -/
/- Lemmas about group keys read back from constructed rows.            -/

theorem keyOf_cons (k : String) (ks : List String) (r : Row) :
    keyOf (k :: ks) r = rowGet r k :: keyOf ks r := rfl

theorem keyOf_cons_row_not_mem (ks : List String) (p : String × Cell) (t : Row)
    (h : p.1 ∉ ks) : keyOf ks (p :: t) = keyOf ks t := by
  unfold keyOf
  apply List.map_congr_left
  intro k hk
  exact rowGet_cons_ne p t k (fun e => h (e ▸ hk))

theorem keyOf_length (ks : List String) (r : Row) : (keyOf ks r).length = ks.length :=
  List.length_map ks _

theorem keyOf_zip_append (ks : List String) (vs : List Cell) (rest : Row)
    (hnd : ks.Nodup) (hlen : vs.length = ks.length) :
    keyOf ks (ks.zip vs ++ rest) = vs := by
  induction ks generalizing vs rest with
  | nil =>
    cases vs with
    | nil => rfl
    | cons v vs => cases hlen
  | cons k ks ih =>
    cases vs with
    | nil => cases hlen
    | cons v vs =>
      rcases List.nodup_cons.1 hnd with ⟨hk, hnd2⟩
      have hlen2 : vs.length = ks.length := by
        simpa using hlen
      rw [List.zip_cons_cons, List.cons_append, keyOf_cons]
      rw [rowGet_cons (k, v) _ k]
      rw [if_pos (by simp)]
      rw [keyOf_cons_row_not_mem ks (k, v) _ hk, ih vs _ hnd2 hlen2]

/- ------------------------------------------------------------------ -/
/- Row counts through the frame operations.                            -/

theorem rows_setCol (df : DFrame) (n : String) (f : Row → Cell) :
    (setCol df n f).rows = df.rows.map (fun r => rowSet r n (f r)) := rfl

theorem length_rows_setCol (df : DFrame) (n : String) (f : Row → Cell) :
    (setCol df n f).rows.length = df.rows.length :=
  List.length_map _ _

theorem length_rows_dropCols (df : DFrame) (names : List String) :
    (dropCols df names).rows.length = df.rows.length :=
  List.length_map _ _

theorem length_mergeSharedRows_of_nodup (lrows rrows : List Row) (k : String)
    (rpad : List String)
    (h : (rrows.map (fun rr => rowGet rr k)).Nodup) :
    (mergeSharedRows lrows rrows k rpad).length = lrows.length := by
  apply length_flatMap_of_forall_one
  intro lr _
  have hle := length_filter_le_one_of_nodup_map rrows (fun rr => rowGet rr k) h
    (rowGet lr k)
  by_cases he : (rrows.filter (fun rr => decide (rowGet rr k = rowGet lr k))).isEmpty = true
  · rw [if_pos he]
    rfl
  · rw [if_neg he, List.length_map]
    have h1 : rrows.filter (fun rr => decide (rowGet rr k = rowGet lr k)) ≠ [] := by
      intro e
      rw [e] at he
      exact he rfl
    have h2 := List.length_pos.2 h1
    omega

/- ------------------------------------------------------------------ -/
/- The normalized key columns built by the joins.                      -/

theorem csv_key_of_row (df : DFrame) (csv_code_col : String) :
    (setCol (setCol df "__csv_code_digits"
        (fun r => Cell.str (zfill 6 (digitsOnly (cellAstype (rowGet r csv_code_col))))))
        "__csv_code6" (fun r => strTakeCell 6 (rowGet r "__csv_code_digits"))).rows.map
      (fun rr => rowGet rr "__csv_code6") =
    df.rows.map (fun r => Cell.str (normCsvCode (rowGet r csv_code_col))) := by
  rw [rows_setCol, rows_setCol, List.map_map, List.map_map]
  apply List.map_congr_left
  intro r _
  show rowGet (rowSet _ "__csv_code6" _) "__csv_code6" = _
  rw [rowGet_rowSet_self]
  rw [rowGet_rowSet_self]
  rfl

theorem nome_key_of_row (df : DFrame) (name_col : String) :
    (setCol df "__nome_norm"
        (fun r => Cell.str (normalizar_nome (rowGet r name_col)))).rows.map
      (fun rr => rowGet rr "__nome_norm") =
    df.rows.map (fun r => Cell.str (normalizar_nome (rowGet r name_col))) := by
  rw [rows_setCol, List.map_map]
  apply List.map_congr_left
  intro r _
  show rowGet (rowSet _ "__nome_norm" _) "__nome_norm" = _
  rw [rowGet_rowSet_self]

/- ------------------------------------------------------------------ -/
/- Digit string normalization facts.                                   -/

theorem digitsOnly_of_all_digits (s : String) (h : s.toList.all Char.isDigit = true) :
    digitsOnly s = s := by
  unfold digitsOnly
  rw [List.filter_eq_self.2 (fun a ha => List.all_eq_true.1 h a ha)]
  rfl

theorem zfill_of_le (w : Nat) (s : String) (h : w ≤ s.length) : zfill w s = s := by
  unfold zfill
  rw [Nat.sub_eq_zero_of_le h]
  show "".append s = s
  apply String.ext
  show [] ++ s.data = s.data
  exact List.nil_append s.data

/- ------------------------------------------------------------------ -/
/- First seen deduplication by a key column.                           -/

theorem sublist_dropDupByGo (c : String) (seen : List Cell) (l : List Row) :
    (dropDupByGo c seen l).Sublist l := by
  induction l generalizing seen with
  | nil => simp [dropDupByGo]
  | cons r l ih =>
    unfold dropDupByGo
    by_cases h : rowGet r c ∈ seen
    · rw [if_pos h]
      exact (ih seen).cons r
    · rw [if_neg h]
      exact (ih (rowGet r c :: seen)).cons₂ r

theorem mem_key_dropDupByGo (c : String) (seen : List Cell) (l : List Row) (v : Cell) :
    v ∈ (dropDupByGo c seen l).map (fun r => rowGet r c) ↔
      v ∈ l.map (fun r => rowGet r c) ∧ v ∉ seen := by
  induction l generalizing seen with
  | nil => simp [dropDupByGo]
  | cons r l ih =>
    unfold dropDupByGo
    by_cases h : rowGet r c ∈ seen
    · rw [if_pos h, ih seen]
      simp only [List.map_cons, List.mem_cons]
      constructor
      · rintro ⟨h1, h2⟩
        exact ⟨Or.inr h1, h2⟩
      · rintro ⟨h1 | h1, h2⟩
        · exact absurd (h1 ▸ h) h2
        · exact ⟨h1, h2⟩
    · rw [if_neg h]
      simp only [List.map_cons, List.mem_cons]
      constructor
      · rintro (h1 | h1)
        · exact ⟨Or.inl h1, h1 ▸ h⟩
        · rcases (ih (rowGet r c :: seen)).1 h1 with ⟨h2, h3⟩
          exact ⟨Or.inr h2, fun hm => h3 (List.mem_cons_of_mem _ hm)⟩
      · rintro ⟨h1 | h1, h2⟩
        · exact Or.inl h1
        · by_cases hv : v = rowGet r c
          · exact Or.inl hv
          · exact Or.inr ((ih (rowGet r c :: seen)).2
              ⟨h1, fun hm => (List.mem_cons.1 hm).elim hv h2⟩)

theorem nodup_key_dropDupByGo (c : String) (seen : List Cell) (l : List Row) :
    ((dropDupByGo c seen l).map (fun r => rowGet r c)).Nodup := by
  induction l generalizing seen with
  | nil => simp [dropDupByGo]
  | cons r l ih =>
    unfold dropDupByGo
    by_cases h : rowGet r c ∈ seen
    · rw [if_pos h]
      exact ih seen
    · rw [if_neg h]
      rw [List.map_cons]
      refine List.nodup_cons.2 ⟨?_, ih (rowGet r c :: seen)⟩
      intro hm
      exact ((mem_key_dropDupByGo c _ l _).1 hm).2 (List.mem_cons_self _ _)

/- ------------------------------------------------------------------ -/
/- Concrete frames used to evaluate the claims on explicit inputs.     -/

/-- One feature with the 7 digit code of Belo Horizonte. -/
def exC1gdf : DFrame :=
  { cols := ["CD_MUN"], rows := [[("CD_MUN", Cell.str "3106200")]] }

/-- Two table rows carrying the same 6 digit code. -/
def exC1df : DFrame :=
  { cols := ["municipio_cod", "total_violencia_domestica"],
    rows := [[("municipio_cod", Cell.str "310620"), ("total_violencia_domestica", Cell.num 1)],
      [("municipio_cod", Cell.str "310620"), ("total_violencia_domestica", Cell.num 2)]] }

/-- A single table row with a unique code, and a unique name. -/
def exC1dfU : DFrame :=
  { cols := ["municipio_cod", "municipio_nome", "total_violencia_domestica"],
    rows := [[("municipio_cod", Cell.str "310620"), ("municipio_nome", Cell.str "Belo Horizonte"),
      ("total_violencia_domestica", Cell.num 1)]] }

/-- One feature whose code attribute is missing. -/
def exC3gdf : DFrame := { cols := ["CD_MUN"], rows := [[("CD_MUN", Cell.nan)]] }

/-- One table row whose code is missing but that carries data. -/
def exC3df : DFrame :=
  { cols := ["municipio_cod", "total_violencia_domestica"],
    rows := [[("municipio_cod", Cell.nan), ("total_violencia_domestica", Cell.num 5)]] }

/-- One feature whose name attribute is missing. -/
def exC3gdfN : DFrame := { cols := ["NM_MUN"], rows := [[("NM_MUN", Cell.nan)]] }

/-- One table row whose name is missing but that carries data. -/
def exC3dfN : DFrame :=
  { cols := ["municipio_nome", "feminicidios"],
    rows := [[("municipio_nome", Cell.nan), ("feminicidios", Cell.num 7)]] }

/-- Long format records of one municipality, metric feminicidios, two years. -/
def exC5df : DFrame :=
  { cols := ["municipio_cod", "municipio_nome", "ano", "feminicidios"],
    rows := [
      [("municipio_cod", Cell.str "310620"), ("municipio_nome", Cell.str "X"),
       ("ano", Cell.num 2022), ("feminicidios", Cell.num 3)],
      [("municipio_cod", Cell.str "310620"), ("municipio_nome", Cell.str "X"),
       ("ano", Cell.num 2023), ("feminicidios", Cell.num 5)]] }

/-- Long format records with two metrics over two years, exposing the pivot
column order. -/
def exC5two : DFrame :=
  { cols := ["municipio_cod", "ano", "feminicidios", "taxa_feminicidio"],
    rows := [
      [("municipio_cod", Cell.str "1"), ("ano", Cell.num 2022),
       ("feminicidios", Cell.num 3), ("taxa_feminicidio", Cell.num 2)],
      [("municipio_cod", Cell.str "1"), ("ano", Cell.num 2023),
       ("feminicidios", Cell.num 5), ("taxa_feminicidio", Cell.num 4)]] }

/-- Two single year rows of one municipality with a mean metric and a sum
metric. -/
def exC6df : DFrame :=
  { cols := ["municipio_cod", "municipio_nome", "ano",
             "total_violencia_domestica", "taxa_feminicidio"],
    rows := [
      [("municipio_cod", Cell.str "X"), ("municipio_nome", Cell.str "Xn"),
       ("ano", Cell.num 2022), ("total_violencia_domestica", Cell.num 10),
       ("taxa_feminicidio", Cell.num 2)],
      [("municipio_cod", Cell.str "X"), ("municipio_nome", Cell.str "Xn"),
       ("ano", Cell.num 2022), ("total_violencia_domestica", Cell.num 15),
       ("taxa_feminicidio", Cell.num 4)]] }

/-- Aggregated output row of the two row example. -/
def exC6row : Row :=
  [("municipio_cod", Cell.str "X"), ("municipio_nome", Cell.str "Xn"),
   ("total_violencia_domestica", Cell.num 25), ("taxa_feminicidio", Cell.num 3)]

/-- A table without the code column, holding two identical rows. -/
def exC9df : DFrame :=
  { cols := ["valor"], rows := [[("valor", Cell.num 1)], [("valor", Cell.num 1)]] }

/-- A table whose only column is the code column, with a duplicated row, so
that nothing is aggregatable. -/
def exC9dfW : DFrame :=
  { cols := ["municipio_cod"],
    rows := [[("municipio_cod", Cell.str "a")], [("municipio_cod", Cell.str "a")]] }

/-- A table with the year and code columns but no configured metric. -/
def exC10df : DFrame :=
  { cols := ["municipio_cod", "ano", "observacao"],
    rows := [
      [("municipio_cod", Cell.str "1"), ("ano", Cell.num 2023), ("observacao", Cell.str "b")],
      [("municipio_cod", Cell.str "1"), ("ano", Cell.num 2022), ("observacao", Cell.str "a")]] }

/-- A feature frame carrying only a name column. -/
def exC8gdf : DFrame :=
  { cols := ["NM_MUN"], rows := [[("NM_MUN", Cell.str "Belo Horizonte")]] }

/-- A table with a name column and one metric. -/
def exC8df : DFrame :=
  { cols := ["municipio_nome", "feminicidios"],
    rows := [[("municipio_nome", Cell.str "belo horizonte"), ("feminicidios", Cell.num 7)]] }

/- ------------------------------------------------------------------ -/
/- Unfolding equations for the two join functions.                     -/

theorem preparar_codigos_eq (gdf df : DFrame) (sc cc : String) :
    preparar_codigos gdf df sc cc =
      (dropCols (prepMerged gdf df sc cc) TRANSIENT_CODE_COLS,
       if "total_violencia_domestica" ∈ (prepMerged gdf df sc cc).cols then
         (prepMerged gdf df sc cc).rows.countP
           (fun r => decide (rowGet r "total_violencia_domestica" ≠ Cell.nan))
       else 0) := rfl

theorem merge_por_nome_eq (gdf df : DFrame) (snc : String) :
    merge_por_nome gdf df snc = dropCols (nomeMerged gdf df snc) ["__nome_norm"] := rfl

theorem rows_leftMergeOn (l r : DFrame) (lk rk : String) :
    (leftMergeOn l r lk rk).rows = mergeRows l.rows r.rows lk rk r.cols := rfl

theorem rows_leftMergeShared (l r : DFrame) (k : String) :
    (leftMergeShared l r k).rows =
      mergeSharedRows l.rows r.rows k (r.cols.filter (fun c => decide (c ≠ k))) := rfl


/- ------------------------------------------------------------------ -/
/- Structure of grouped aggregation output rows.                       -/

theorem validKey_eq_true_iff (keys : List String) (r : Row) :
    validKey keys r = true ↔ ∀ k ∈ keys, rowGet r k ≠ Cell.nan := by
  unfold validKey
  rw [List.all_eq_true]
  simp

theorem rowGet_zip_not_mem (ks : List String) (vs : List Cell) (rest : Row)
    (k : String) (h : k ∉ ks) :
    rowGet (ks.zip vs ++ rest) k = rowGet rest k := by
  induction ks generalizing vs with
  | nil => rfl
  | cons k0 ks ih =>
    cases vs with
    | nil => rfl
    | cons v vs =>
      rw [List.zip_cons_cons, List.cons_append,
        rowGet_cons_ne (k0, v) _ k (fun e => h (List.mem_cons.2 (Or.inl e.symm)))]
      exact ih vs (fun hm => h (List.mem_cons_of_mem k0 hm))

theorem rowGet_map_entries (l : List (String × AggFn)) (g : String × AggFn → Cell)
    (a : String × AggFn) (hnd : (l.map Prod.fst).Nodup) (ha : a ∈ l) :
    rowGet (l.map (fun x => (x.1, g x))) a.1 = g a := by
  induction l with
  | nil => cases ha
  | cons b l ih =>
    rw [List.map_cons, List.nodup_cons] at hnd
    rcases List.mem_cons.1 ha with rfl | ha2
    · rw [List.map_cons, rowGet_cons]
      simp
    · rw [List.map_cons, rowGet_cons_ne _ _ _ ?_]
      · exact ih hnd.2 ha2
      · intro e
        exact hnd.1 (e ▸ List.mem_map.2 ⟨a, ha2, rfl⟩)

theorem groupbyAgg_rows (df : DFrame) (keys : List String)
    (aggs : List (String × AggFn))
    (hv : df.rows.filter (validKey keys) = df.rows) :
    (groupbyAgg df keys aggs).rows =
      (sortLe keyLeB (distinctFirst (df.rows.map (keyOf keys)))).map
        (fun kv =>
          keys.zip kv ++ aggs.map (fun a => (a.1, applyAgg a.2
            ((df.rows.filter (fun r => decide (keyOf keys r = kv))).map
              (fun r => rowGet r a.1))))) := by
  unfold groupbyAgg
  simp only [hv]

theorem groupbyAgg_keys (df : DFrame) (keys : List String)
    (aggs : List (String × AggFn)) (hnd : keys.Nodup)
    (hv : df.rows.filter (validKey keys) = df.rows) :
    (groupbyAgg df keys aggs).rows.map (keyOf keys) =
      sortLe keyLeB (distinctFirst (df.rows.map (keyOf keys))) := by
  rw [groupbyAgg_rows df keys aggs hv, List.map_map]
  have h1 : ∀ kv ∈ sortLe keyLeB (distinctFirst (df.rows.map (keyOf keys))),
      keyOf keys (keys.zip kv ++ aggs.map (fun a => (a.1, applyAgg a.2
        ((df.rows.filter (fun r => decide (keyOf keys r = kv))).map
          (fun r => rowGet r a.1))))) = kv := by
    intro kv hkv
    have hkv2 : kv ∈ df.rows.map (keyOf keys) :=
      (mem_distinctFirst _ _).1 ((mem_sortLe _ _ _).1 hkv)
    rcases List.mem_map.1 hkv2 with ⟨r0, _, hkeq⟩
    exact keyOf_zip_append keys kv _ hnd (by rw [← hkeq]; exact keyOf_length keys r0)
  calc (sortLe keyLeB (distinctFirst (df.rows.map (keyOf keys)))).map _
      = (sortLe keyLeB (distinctFirst (df.rows.map (keyOf keys)))).map id :=
        List.map_congr_left h1
    _ = _ := List.map_id _

theorem map_fst_filterMap_sublist {γ : Type} (l : List String)
    (f : String → Option (String × γ))
    (hf : ∀ x y, f x = some y → y.1 = x) :
    ((l.filterMap f).map Prod.fst).Sublist l := by
  induction l with
  | nil => simp
  | cons a l ih =>
    rcases hfa : f a with _ | b
    · simp only [List.filterMap_cons, hfa]
      exact ih.cons a
    · simp only [List.filterMap_cons, hfa, List.map_cons]
      rw [hf a b hfa]
      exact ih.cons₂ a

theorem aggSpec_names_sublist (df : DFrame) (c : String) :
    ((aggSpec df c).map Prod.fst).Sublist df.cols := by
  unfold aggSpec
  apply map_fst_filterMap_sublist
  intro x y hf
  by_cases h1 : x = c ∨ x = YEAR_COLUMN
  · rw [if_pos h1] at hf
    cases hf
  · rw [if_neg h1] at hf
    by_cases h2 : x = "municipio_nome"
    · rw [if_pos h2] at hf
      cases hf
      rfl
    · rw [if_neg h2] at hf
      by_cases h3 : isNumericCol df x = true
      · rw [if_pos h3] at hf
        cases hf
        rfl
      · rw [if_neg h3] at hf
        cases hf

theorem aggSpec_mem (df : DFrame) (c : String) (a : String × AggFn)
    (ha : a ∈ aggSpec df c) : a.1 ∈ df.cols ∧ a.1 ≠ c := by
  rcases List.mem_filterMap.1 ha with ⟨col, hcol, hf⟩
  by_cases h1 : col = c ∨ col = YEAR_COLUMN
  · rw [if_pos h1] at hf
    cases hf
  · rw [if_neg h1] at hf
    have hcne : col ≠ c := fun e => h1 (Or.inl e)
    by_cases h2 : col = "municipio_nome"
    · rw [if_pos h2] at hf
      cases hf
      exact ⟨hcol, hcne⟩
    · rw [if_neg h2] at hf
      by_cases h3 : isNumericCol df col = true
      · rw [if_pos h3] at hf
        cases hf
        exact ⟨hcol, hcne⟩
      · rw [if_neg h3] at hf
        cases hf


/- ------------------------------------------------------------------ -/
/- Facts carried from the long table through groupby into the pivot.   -/

theorem numsOf_length_of_all (cs : List Cell) (h : ∀ x ∈ cs, x.isNum = true) :
    (numsOf cs).length = cs.length := by
  induction cs with
  | nil => rfl
  | cons x cs ih =>
    have hx := h x (List.mem_cons_self x cs)
    have htail := ih (fun y hy => h y (List.mem_cons_of_mem x hy))
    cases x with
    | num q =>
      show (numsOf (Cell.num q :: cs)).length = cs.length + 1
      unfold numsOf at htail ⊢
      rw [List.filterMap_cons]
      simp only []
      rw [List.length_cons, htail]
    | str s => cases hx
    | nan => cases hx

theorem isNum_ne_nan (x : Cell) (h : x.isNum = true) : x ≠ Cell.nan := by
  cases x with
  | num q => intro e; cases e
  | str s => cases h
  | nan => cases h

theorem validKey_iff_keyOf (keys : List String) (r : Row) :
    validKey keys r = true ↔ ∀ x ∈ keyOf keys r, x ≠ Cell.nan := by
  rw [validKey_eq_true_iff]
  constructor
  · intro h x hx
    rcases List.mem_map.1 hx with ⟨k, hk, rfl⟩
    exact h k hk
  · intro h k hk
    exact h (rowGet r k) (List.mem_map.2 ⟨k, hk, rfl⟩)

theorem rowGet_eq_of_keyOf_eq (keys : List String) (r r' : Row)
    (h : keyOf keys r = keyOf keys r') (k : String) (hk : k ∈ keys) :
    rowGet r k = rowGet r' k := by
  induction keys with
  | nil => cases hk
  | cons k0 keys ih =>
    rw [keyOf_cons, keyOf_cons] at h
    rcases List.mem_cons.1 hk with rfl | hk2
    · exact (List.cons.injEq _ _ _ _ ▸ h).1
    · exact ih (List.cons.injEq _ _ _ _ ▸ h).2 hk2

theorem groupbyAgg_key_corr (df : DFrame) (keys : List String)
    (aggs : List (String × AggFn)) (hnd : keys.Nodup)
    (hv : df.rows.filter (validKey keys) = df.rows) :
    ∀ ro ∈ (groupbyAgg df keys aggs).rows,
      ∃ r0 ∈ df.rows, keyOf keys ro = keyOf keys r0 := by
  intro ro hro
  have h1 : keyOf keys ro ∈ (groupbyAgg df keys aggs).rows.map (keyOf keys) :=
    List.mem_map.2 ⟨ro, hro, rfl⟩
  rw [groupbyAgg_keys df keys aggs hnd hv, mem_sortLe, mem_distinctFirst] at h1
  rcases List.mem_map.1 h1 with ⟨r0, hr0, he⟩
  exact ⟨r0, hr0, he.symm⟩

theorem groupbyAgg_surj (df : DFrame) (keys : List String)
    (aggs : List (String × AggFn)) (hnd : keys.Nodup)
    (hv : df.rows.filter (validKey keys) = df.rows) :
    ∀ r0 ∈ df.rows, ∃ ro ∈ (groupbyAgg df keys aggs).rows,
      keyOf keys ro = keyOf keys r0 := by
  intro r0 hr0
  have h1 : keyOf keys r0 ∈ (groupbyAgg df keys aggs).rows.map (keyOf keys) := by
    rw [groupbyAgg_keys df keys aggs hnd hv, mem_sortLe, mem_distinctFirst]
    exact List.mem_map.2 ⟨r0, hr0, rfl⟩
  rcases List.mem_map.1 h1 with ⟨ro, hro, he⟩
  exact ⟨ro, hro, he⟩

theorem groupbyAgg_valid (df : DFrame) (keys : List String)
    (aggs : List (String × AggFn)) (hnd : keys.Nodup)
    (hv : df.rows.filter (validKey keys) = df.rows) :
    (groupbyAgg df keys aggs).rows.filter (validKey keys) =
      (groupbyAgg df keys aggs).rows := by
  apply List.filter_eq_self.2
  intro ro hro
  rcases groupbyAgg_key_corr df keys aggs hnd hv ro hro with ⟨r0, hr0, he⟩
  rw [validKey_iff_keyOf, he]
  exact (validKey_iff_keyOf keys r0).1 (List.filter_eq_self.1 hv r0 hr0)

theorem groupbyAgg_row_facts (df : DFrame) (keys : List String)
    (aggs : List (String × AggFn)) (hnd : keys.Nodup)
    (hv : df.rows.filter (validKey keys) = df.rows)
    (hnames : (aggs.map Prod.fst).Nodup)
    (hdisj : ∀ a ∈ aggs, a.1 ∉ keys) :
    ∀ ro ∈ (groupbyAgg df keys aggs).rows,
      ∃ r0 ∈ df.rows, keyOf keys ro = keyOf keys r0 ∧
        ∀ a ∈ aggs, rowGet ro a.1 = applyAgg a.2
          ((df.rows.filter (fun r => decide (keyOf keys r = keyOf keys r0))).map
            (fun r => rowGet r a.1)) := by
  intro ro hro
  rw [groupbyAgg_rows df keys aggs hv] at hro
  rcases List.mem_map.1 hro with ⟨kv, hkv, rfl⟩
  have hkv2 : kv ∈ df.rows.map (keyOf keys) :=
    (mem_distinctFirst _ _).1 ((mem_sortLe _ _ _).1 hkv)
  rcases List.mem_map.1 hkv2 with ⟨r0, hr0, hkeq⟩
  have hlen : kv.length = keys.length := by
    rw [← hkeq]
    exact keyOf_length keys r0
  refine ⟨r0, hr0, ?_, ?_⟩
  · rw [keyOf_zip_append keys kv _ hnd hlen, hkeq]
  · intro a ha
    rw [rowGet_zip_not_mem keys kv _ a.1 (hdisj a ha),
      rowGet_map_entries aggs _ a hnames ha, ← hkeq]

theorem groupbyAgg_isNum (df : DFrame) (keys : List String)
    (aggs : List (String × AggFn)) (hnd : keys.Nodup)
    (hv : df.rows.filter (validKey keys) = df.rows)
    (hnames : (aggs.map Prod.fst).Nodup)
    (hdisj : ∀ a ∈ aggs, a.1 ∉ keys)
    (hfn : ∀ a ∈ aggs, a.2 = AggFn.mean ∨ a.2 = AggFn.sum)
    (hmet : ∀ r ∈ df.rows, ∀ a ∈ aggs, (rowGet r a.1).isNum = true) :
    ∀ ro ∈ (groupbyAgg df keys aggs).rows, ∀ a ∈ aggs,
      (rowGet ro a.1).isNum = true := by
  intro ro hro a ha
  rcases groupbyAgg_row_facts df keys aggs hnd hv hnames hdisj ro hro with
    ⟨r0, hr0, _, hval⟩
  rw [hval a ha]
  have hr0g : r0 ∈ df.rows.filter (fun r => decide (keyOf keys r = keyOf keys r0)) :=
    List.mem_filter.2 ⟨hr0, by simp⟩
  have hall : ∀ x ∈ (df.rows.filter
      (fun r => decide (keyOf keys r = keyOf keys r0))).map
      (fun r => rowGet r a.1), x.isNum = true := by
    intro x hx
    rcases List.mem_map.1 hx with ⟨r, hrf, rfl⟩
    exact hmet r (List.mem_filter.1 hrf).1 a ha
  have hne : (df.rows.filter
      (fun r => decide (keyOf keys r = keyOf keys r0))).map
      (fun r => rowGet r a.1) ≠ [] := by
    intro e
    have hmm : rowGet r0 a.1 ∈ (df.rows.filter
        (fun r => decide (keyOf keys r = keyOf keys r0))).map
        (fun r => rowGet r a.1) := List.mem_map.2 ⟨r0, hr0g, rfl⟩
    rw [e] at hmm
    cases hmm
  rcases hfn a ha with hf | hf <;> rw [hf]
  · show (applyAgg AggFn.mean _).isNum = true
    unfold applyAgg
    have hlen := numsOf_length_of_all _ hall
    have hemp : (numsOf ((df.rows.filter
        (fun r => decide (keyOf keys r = keyOf keys r0))).map
        (fun r => rowGet r a.1))).isEmpty = false := by
      cases h' : (numsOf _).isEmpty
      · rfl
      · exfalso
        have h2 := List.isEmpty_iff.1 h'
        rw [h2] at hlen
        exact hne (List.length_eq_zero.1 hlen.symm)
    simp [hemp, Cell.isNum]
  · rfl

theorem length_flatMap_const (l : List String) (ys : List Cell) :
    (l.flatMap (fun m => ys.map (fun y => (m, y)))).length = l.length * ys.length := by
  induction l with
  | nil => simp
  | cons m l ih =>
    rw [List.flatMap_cons, List.length_append, List.length_map, ih, List.length_cons]
    ring

/- ------------------------------------------------------------------ -/
/- Structure of the pivot output.                                      -/

theorem pivot_rows (df2 : DFrame) (index : List String) (ccol : String)
    (values : List String)
    (hv : df2.rows.filter (validKey (index ++ [ccol])) = df2.rows) :
    (pivotSortedRenamed df2 index ccol values).rows =
      (sortLe keyLeB (distinctFirst (df2.rows.map (keyOf index)))).map
        (fun kv =>
          index.zip kv ++
            (sortLe pairLeB ((values.flatMap (fun m =>
              (sortLe cellLeB (distinctFirst
                (df2.rows.map (fun r => rowGet r ccol)))).map
                (fun y => (m, y)))).filter (fun p =>
                  df2.rows.any (fun r => decide (rowGet r ccol = p.2) &&
                    decide (rowGet r p.1 ≠ Cell.nan))))).map
              (fun p => (pivotColName p,
                aggFirstAt (df2.rows.filter (fun r => decide (keyOf index r = kv)))
                  ccol p.2 p.1))) := by
  unfold pivotSortedRenamed
  simp only [hv]

theorem pivot_cols (df2 : DFrame) (index : List String) (ccol : String)
    (values : List String)
    (hv : df2.rows.filter (validKey (index ++ [ccol])) = df2.rows) :
    (pivotSortedRenamed df2 index ccol values).cols =
      index ++ (sortLe pairLeB ((values.flatMap (fun m =>
        (sortLe cellLeB (distinctFirst
          (df2.rows.map (fun r => rowGet r ccol)))).map
          (fun y => (m, y)))).filter (fun p =>
            df2.rows.any (fun r => decide (rowGet r ccol = p.2) &&
              decide (rowGet r p.1 ≠ Cell.nan))))).map pivotColName := by
  unfold pivotSortedRenamed
  simp only [hv]

theorem pivot_keys (df2 : DFrame) (index : List String) (ccol : String)
    (values : List String) (hnd : index.Nodup)
    (hv : df2.rows.filter (validKey (index ++ [ccol])) = df2.rows) :
    (pivotSortedRenamed df2 index ccol values).rows.map (keyOf index) =
      sortLe keyLeB (distinctFirst (df2.rows.map (keyOf index))) := by
  rw [pivot_rows df2 index ccol values hv, List.map_map]
  have h1 : ∀ kv ∈ sortLe keyLeB (distinctFirst (df2.rows.map (keyOf index))),
      (keyOf index ∘ fun kv =>
        index.zip kv ++
          (sortLe pairLeB ((values.flatMap (fun m =>
            (sortLe cellLeB (distinctFirst
              (df2.rows.map (fun r => rowGet r ccol)))).map
              (fun y => (m, y)))).filter (fun p =>
                df2.rows.any (fun r => decide (rowGet r ccol = p.2) &&
                  decide (rowGet r p.1 ≠ Cell.nan))))).map
            (fun p => (pivotColName p,
              aggFirstAt (df2.rows.filter (fun r => decide (keyOf index r = kv)))
                ccol p.2 p.1))) kv = id kv := by
    intro kv hkv
    have hkv2 : kv ∈ df2.rows.map (keyOf index) :=
      (mem_distinctFirst _ _).1 ((mem_sortLe _ _ _).1 hkv)
    rcases List.mem_map.1 hkv2 with ⟨r0, _, hkeq⟩
    show keyOf index (index.zip kv ++ _) = kv
    exact keyOf_zip_append index kv _ hnd (by rw [← hkeq]; exact keyOf_length index r0)
  rw [List.map_congr_left h1, List.map_id]


theorem pivot_chain_spec (df : DFrame) (icols : List String) (metrics : List String)
    (aggs : List (String × AggFn))
    (haggs : aggs = metrics.map
      (fun m => (m, if m ∈ METRIC_MEAN then AggFn.mean else AggFn.sum)))
    (hndg : (icols ++ [YEAR_COLUMN]).Nodup)
    (hvAll : df.rows.filter (validKey (icols ++ [YEAR_COLUMN])) = df.rows)
    (hmnd : metrics.Nodup)
    (hdisj : ∀ m ∈ metrics, m ∉ icols ++ [YEAR_COLUMN])
    (hmet : ∀ r ∈ df.rows, ∀ m ∈ metrics, (rowGet r m).isNum = true)
    (hyears : ∀ r ∈ df.rows, rowGet r YEAR_COLUMN ≠ Cell.nan) :
    ((pivotSortedRenamed (groupbyAgg df (icols ++ [YEAR_COLUMN]) aggs) icols
        YEAR_COLUMN metrics).rows.map (keyOf icols)).Nodup ∧
    (∀ kv, kv ∈ (pivotSortedRenamed (groupbyAgg df (icols ++ [YEAR_COLUMN]) aggs) icols
        YEAR_COLUMN metrics).rows.map (keyOf icols) ↔
      kv ∈ df.rows.map (keyOf icols)) ∧
    (∀ m ∈ metrics, ∀ y ∈ anosDisponiveis df,
      pivotColName (m, y) ∈ (pivotSortedRenamed
        (groupbyAgg df (icols ++ [YEAR_COLUMN]) aggs) icols YEAR_COLUMN metrics).cols) ∧
    (pivotSortedRenamed (groupbyAgg df (icols ++ [YEAR_COLUMN]) aggs) icols
        YEAR_COLUMN metrics).cols.length =
      icols.length + metrics.length * (anosDisponiveis df).length := by
  subst haggs
  have hndi : icols.Nodup := (List.nodup_append.1 hndg).1
  have hfst : ((metrics.map
      (fun m => (m, if m ∈ METRIC_MEAN then AggFn.mean else AggFn.sum))).map
      Prod.fst) = metrics := by
    rw [List.map_map]
    calc metrics.map _ = metrics.map id := List.map_congr_left (fun m _ => rfl)
      _ = metrics := List.map_id _
  have hnames : ((metrics.map
      (fun m => (m, if m ∈ METRIC_MEAN then AggFn.mean else AggFn.sum))).map
      Prod.fst).Nodup := by
    rw [hfst]
    exact hmnd
  have hdisj2 : ∀ a ∈ metrics.map
      (fun m => (m, if m ∈ METRIC_MEAN then AggFn.mean else AggFn.sum)),
      a.1 ∉ icols ++ [YEAR_COLUMN] := by
    intro a ha
    rcases List.mem_map.1 ha with ⟨m, hmm, rfl⟩
    exact hdisj m hmm
  have hfn : ∀ a ∈ metrics.map
      (fun m => (m, if m ∈ METRIC_MEAN then AggFn.mean else AggFn.sum)),
      a.2 = AggFn.mean ∨ a.2 = AggFn.sum := by
    intro a ha
    rcases List.mem_map.1 ha with ⟨m, hmm, rfl⟩
    by_cases h : m ∈ METRIC_MEAN
    · left
      simp [h]
    · right
      simp [h]
  have hmet2 : ∀ r ∈ df.rows, ∀ a ∈ metrics.map
      (fun m => (m, if m ∈ METRIC_MEAN then AggFn.mean else AggFn.sum)),
      (rowGet r a.1).isNum = true := by
    intro r hr a ha
    rcases List.mem_map.1 ha with ⟨m, hmm, rfl⟩
    exact hmet r hr m hmm
  have hvA := groupbyAgg_valid df (icols ++ [YEAR_COLUMN])
    (metrics.map (fun m => (m, if m ∈ METRIC_MEAN then AggFn.mean else AggFn.sum)))
    hndg hvAll
  have hAcorr := groupbyAgg_key_corr df (icols ++ [YEAR_COLUMN])
    (metrics.map (fun m => (m, if m ∈ METRIC_MEAN then AggFn.mean else AggFn.sum)))
    hndg hvAll
  have hAsurj := groupbyAgg_surj df (icols ++ [YEAR_COLUMN])
    (metrics.map (fun m => (m, if m ∈ METRIC_MEAN then AggFn.mean else AggFn.sum)))
    hndg hvAll
  have hAnum := groupbyAgg_isNum df (icols ++ [YEAR_COLUMN])
    (metrics.map (fun m => (m, if m ∈ METRIC_MEAN then AggFn.mean else AggFn.sum)))
    hndg hvAll hnames hdisj2 hfn hmet2
  have hicolsproj : ∀ ro r0, keyOf (icols ++ [YEAR_COLUMN]) ro =
      keyOf (icols ++ [YEAR_COLUMN]) r0 → keyOf icols ro = keyOf icols r0 := by
    intro ro r0 he
    unfold keyOf
    apply List.map_congr_left
    intro k hk
    exact rowGet_eq_of_keyOf_eq _ ro r0 he k (List.mem_append_left _ hk)
  have hkeymem : ∀ kv, kv ∈ (groupbyAgg df (icols ++ [YEAR_COLUMN])
      (metrics.map (fun m => (m, if m ∈ METRIC_MEAN then AggFn.mean
        else AggFn.sum)))).rows.map (keyOf icols) ↔
      kv ∈ df.rows.map (keyOf icols) := by
    intro kv
    constructor
    · intro h1
      rcases List.mem_map.1 h1 with ⟨ro, hro, rfl⟩
      rcases hAcorr ro hro with ⟨r0, hr0, he⟩
      rw [hicolsproj ro r0 he]
      exact List.mem_map.2 ⟨r0, hr0, rfl⟩
    · intro h1
      rcases List.mem_map.1 h1 with ⟨r0, hr0, rfl⟩
      rcases hAsurj r0 hr0 with ⟨ro, hro, he⟩
      exact List.mem_map.2 ⟨ro, hro, hicolsproj ro r0 he⟩
  have hyearcomp : ∀ ro r0, keyOf (icols ++ [YEAR_COLUMN]) ro =
      keyOf (icols ++ [YEAR_COLUMN]) r0 →
      rowGet ro YEAR_COLUMN = rowGet r0 YEAR_COLUMN := by
    intro ro r0 he
    exact rowGet_eq_of_keyOf_eq _ ro r0 he YEAR_COLUMN
      (List.mem_append_right _ (List.mem_cons_self _ _))
  have hyearmem : ∀ y, y ∈ (groupbyAgg df (icols ++ [YEAR_COLUMN])
      (metrics.map (fun m => (m, if m ∈ METRIC_MEAN then AggFn.mean
        else AggFn.sum)))).rows.map (fun r => rowGet r YEAR_COLUMN) ↔
      y ∈ df.rows.map (fun r => rowGet r YEAR_COLUMN) := by
    intro y
    constructor
    · intro h1
      rcases List.mem_map.1 h1 with ⟨ro, hro, rfl⟩
      rcases hAcorr ro hro with ⟨r0, hr0, he⟩
      rw [hyearcomp ro r0 he]
      exact List.mem_map.2 ⟨r0, hr0, rfl⟩
    · intro h1
      rcases List.mem_map.1 h1 with ⟨r0, hr0, rfl⟩
      rcases hAsurj r0 hr0 with ⟨ro, hro, he⟩
      exact List.mem_map.2 ⟨ro, hro, hyearcomp ro r0 he⟩
  have hanos : anosDisponiveis df =
      sortLe cellLeB (distinctFirst (df.rows.map (fun r => rowGet r YEAR_COLUMN))) := by
    unfold anosDisponiveis
    have hfe : (df.rows.map (fun r => rowGet r YEAR_COLUMN)).filter
        (fun c => decide (c ≠ Cell.nan)) =
        df.rows.map (fun r => rowGet r YEAR_COLUMN) := by
      apply List.filter_eq_self.2
      intro y hy
      rcases List.mem_map.1 hy with ⟨r, hr, rfl⟩
      simp [hyears r hr]
    rw [hfe]
  have hYSmem : ∀ y, y ∈ sortLe cellLeB (distinctFirst
      ((groupbyAgg df (icols ++ [YEAR_COLUMN])
        (metrics.map (fun m => (m, if m ∈ METRIC_MEAN then AggFn.mean
          else AggFn.sum)))).rows.map (fun r => rowGet r YEAR_COLUMN))) ↔
      y ∈ anosDisponiveis df := by
    intro y
    rw [hanos, mem_sortLe, mem_distinctFirst, mem_sortLe, mem_distinctFirst]
    exact hyearmem y
  have hYSlen : (sortLe cellLeB (distinctFirst
      ((groupbyAgg df (icols ++ [YEAR_COLUMN])
        (metrics.map (fun m => (m, if m ∈ METRIC_MEAN then AggFn.mean
          else AggFn.sum)))).rows.map (fun r => rowGet r YEAR_COLUMN)))).length =
      (anosDisponiveis df).length := by
    have h1 : (sortLe cellLeB (distinctFirst
        ((groupbyAgg df (icols ++ [YEAR_COLUMN])
          (metrics.map (fun m => (m, if m ∈ METRIC_MEAN then AggFn.mean
            else AggFn.sum)))).rows.map (fun r => rowGet r YEAR_COLUMN)))).Nodup :=
      (nodup_sortLe _ _).2 (nodup_distinctFirst _)
    have h2 : (anosDisponiveis df).Nodup :=
      (nodup_sortLe _ _).2 (nodup_distinctFirst _)
    exact ((List.perm_ext_iff_of_nodup h1 h2).2 hYSmem).length_eq
  have hpairs : ((metrics.flatMap (fun m =>
      (sortLe cellLeB (distinctFirst
        ((groupbyAgg df (icols ++ [YEAR_COLUMN])
          (metrics.map (fun m => (m, if m ∈ METRIC_MEAN then AggFn.mean
            else AggFn.sum)))).rows.map (fun r => rowGet r YEAR_COLUMN)))).map
        (fun y => (m, y)))).filter (fun p =>
          (groupbyAgg df (icols ++ [YEAR_COLUMN])
            (metrics.map (fun m => (m, if m ∈ METRIC_MEAN then AggFn.mean
              else AggFn.sum)))).rows.any
            (fun r => decide (rowGet r YEAR_COLUMN = p.2) &&
              decide (rowGet r p.1 ≠ Cell.nan)))) =
      metrics.flatMap (fun m =>
        (sortLe cellLeB (distinctFirst
          ((groupbyAgg df (icols ++ [YEAR_COLUMN])
            (metrics.map (fun m => (m, if m ∈ METRIC_MEAN then AggFn.mean
              else AggFn.sum)))).rows.map (fun r => rowGet r YEAR_COLUMN)))).map
          (fun y => (m, y))) := by
    apply List.filter_eq_self.2
    intro p hp
    rcases List.mem_flatMap.1 hp with ⟨m, hmm, hpm⟩
    rcases List.mem_map.1 hpm with ⟨y, hyy, rfl⟩
    have hy2 : y ∈ (groupbyAgg df (icols ++ [YEAR_COLUMN])
        (metrics.map (fun m => (m, if m ∈ METRIC_MEAN then AggFn.mean
          else AggFn.sum)))).rows.map (fun r => rowGet r YEAR_COLUMN) :=
      (mem_distinctFirst _ _).1 ((mem_sortLe _ _ _).1 hyy)
    rcases List.mem_map.1 hy2 with ⟨ro, hro, rfl⟩
    apply List.any_eq_true.2
    refine ⟨ro, hro, ?_⟩
    rw [Bool.and_eq_true]
    refine ⟨by simp, ?_⟩
    rw [decide_eq_true_eq]
    exact isNum_ne_nan _
      (hAnum ro hro (m, if m ∈ METRIC_MEAN then AggFn.mean else AggFn.sum)
        (List.mem_map.2 ⟨m, hmm, rfl⟩))
  refine ⟨?_, ?_, ?_, ?_⟩
  · rw [pivot_keys _ icols YEAR_COLUMN metrics hndi hvA]
    exact (nodup_sortLe _ _).2 (nodup_distinctFirst _)
  · intro kv
    rw [pivot_keys _ icols YEAR_COLUMN metrics hndi hvA, mem_sortLe, mem_distinctFirst]
    exact hkeymem kv
  · intro m hmm y hyy
    rw [pivot_cols _ icols YEAR_COLUMN metrics hvA]
    apply List.mem_append_right
    apply List.mem_map.2
    refine ⟨(m, y), ?_, rfl⟩
    rw [mem_sortLe, hpairs]
    exact List.mem_flatMap.2 ⟨m, hmm, List.mem_map.2 ⟨y, (hYSmem y).2 hyy, rfl⟩⟩
  · rw [pivot_cols _ icols YEAR_COLUMN metrics hvA, List.length_append, List.length_map,
      length_sortLe, hpairs, length_flatMap_const, hYSlen]


/- ------------------------------------------------------------------ -/
/- Claim theorems.                                                     -/

attribute [local semireducible] Rat.add Rat.mul Rat.sub Rat.inv

/-- C2, counterexample: the claim asserts that the tabular code 31062 also
normalizes to 310620, but the source pads it to 031062 first, so the two
sides produce different canonical codes. -/
theorem C2_counterexample :
    normShpCode (Cell.str "3106200") = "310620" ∧
    normCsvCode (Cell.str "31062") = "031062" ∧
    normCsvCode (Cell.str "31062") ≠ normShpCode (Cell.str "3106200") := by
  exact ⟨by decide, by decide, by decide⟩

/-- C2, amended: code normalization strips non digits, pads to width 7 on the
geometry side and 6 on the tabular side, and keeps the first 6 characters;
for a 7 digit geometry code and a tabular code of at least 6 digits whose
first 6 digits agree, both sides normalize to that common 6 digit prefix,
regardless of the geometry side seventh digit.  A tabular code of fewer than
6 digits is zero padded on the left and in general produces a different key. -/
theorem C2_truncation_amended (g t : String)
    (hg : g.toList.all Char.isDigit = true) (hgl : g.length = 7)
    (ht : t.toList.all Char.isDigit = true) (htl : 6 ≤ t.length)
    (heq : t.toList.take 6 = g.toList.take 6) :
    normShpCode (Cell.str g) = normCsvCode (Cell.str t) ∧
    normShpCode (Cell.str g) = (g.toList.take 6).asString := by
  have h1 : normShpCode (Cell.str g) = (g.toList.take 6).asString := by
    show takeChars 6 (zfill 7 (digitsOnly g)) = _
    rw [digitsOnly_of_all_digits g hg, zfill_of_le 7 g (le_of_eq hgl.symm)]
    rfl
  have h2 : normCsvCode (Cell.str t) = (t.toList.take 6).asString := by
    show takeChars 6 (zfill 6 (digitsOnly t)) = _
    rw [digitsOnly_of_all_digits t ht, zfill_of_le 6 t htl]
    rfl
  refine ⟨?_, h1⟩
  rw [h1, h2, heq]

/-- C2, witness for the amended theorem at the concrete codes of the claim. -/
theorem C2_truncation_amended_witness :
    normShpCode (Cell.str "3106200") = normCsvCode (Cell.str "310620") ∧
    normShpCode (Cell.str "3106200") = ("3106200".toList.take 6).asString :=
  C2_truncation_amended "3106200" "310620" (by decide) (by decide) (by decide)
    (by decide) (by decide)

/-- C3, behavior at the failing input: a feature with a missing code and a
table row with a missing code both normalize to the all zero key 000000 and
the left join does pair them, handing the row data to the feature and
counting it as a match; the name path likewise pairs two missing names via
the shared empty normalized name. -/
theorem C3_empty_keys_join :
    (preparar_codigos exC3gdf exC3df "CD_MUN" "municipio_cod").1.rows =
      [[("CD_MUN", Cell.nan), ("municipio_cod", Cell.nan),
        ("total_violencia_domestica", Cell.num 5)]] ∧
    (preparar_codigos exC3gdf exC3df "CD_MUN" "municipio_cod").2 = 1 ∧
    normShpCode Cell.nan = "000000" ∧
    normCsvCode Cell.nan = "000000" ∧
    merge_por_nome exC3gdfN exC3dfN "NM_MUN" =
      { cols := ["NM_MUN", "municipio_nome", "feminicidios"],
        rows := [[("NM_MUN", Cell.nan), ("municipio_nome", Cell.nan),
          ("feminicidios", Cell.num 7)]] } := by
  exact ⟨by decide, by decide, by decide, by decide, by decide⟩

/-- C4, counterexample: the hyphenated name is split on whitespace only, so
the token del-Rei keeps its hyphen and title cases to Del-Rei, which differs
from the canonical form of the space separated spelling. -/
theorem C4_counterexample :
    normalizar_nome (Cell.str "São João del-Rei") ≠
      normalizar_nome (Cell.str "sao joao del rei") := by decide

/-- C4, amended: the lower case and upper case space separated spellings
normalize to the same token Sao Joao Del Rei, but the hyphenated spelling
normalizes to Sao Joao Del-Rei, a different token. -/
theorem C4_name_normalization_amended :
    normalizar_nome (Cell.str "sao joao del rei") = "Sao Joao Del Rei" ∧
    normalizar_nome (Cell.str "SÃO JOÃO DEL REI") = "Sao Joao Del Rei" ∧
    normalizar_nome (Cell.str "São João del-Rei") = "Sao Joao Del-Rei" := by
  exact ⟨by decide, by decide, by decide⟩

/-- C9, counterexample: when the code column is absent the function returns
the table unchanged, duplicates included, not a deduplicated table. -/
theorem C9_counterexample :
    "municipio_cod" ∉ exC9df.cols ∧
    agrupar_por_municipio exC9df "municipio_cod" = exC9df ∧
    exC9df.rows = [[("valor", Cell.num 1)], [("valor", Cell.num 1)]] := by
  exact ⟨by decide, by decide, by decide⟩

/-- C9, amended: when the code column is absent the aggregation does not fail
and returns the table unchanged; the best effort removal of duplicate rows by
the code key, first occurrence winning, happens instead in the case where the
code column is present but no column is aggregatable. -/
theorem C9_missing_code_amended (df : DFrame) (c : String) :
    (c ∉ df.cols → agrupar_por_municipio df c = df) ∧
    (c ∈ df.cols → aggSpec df c = [] →
      (agrupar_por_municipio df c).cols = df.cols ∧
      (agrupar_por_municipio df c).rows.Sublist df.rows ∧
      ((agrupar_por_municipio df c).rows.map (fun r => rowGet r c)).Nodup ∧
      ∀ r ∈ df.rows,
        rowGet r c ∈ (agrupar_por_municipio df c).rows.map (fun r => rowGet r c)) := by
  constructor
  · intro hc
    unfold agrupar_por_municipio
    rw [if_neg hc]
  · intro hc h0
    have hagg : agrupar_por_municipio df c =
        { cols := df.cols, rows := dropDupByGo c [] df.rows } := by
      unfold agrupar_por_municipio
      rw [if_pos hc]
      simp only [h0, List.isEmpty_nil, if_pos]
    rw [hagg]
    refine ⟨rfl, sublist_dropDupByGo c [] df.rows, nodup_key_dropDupByGo c [] df.rows, ?_⟩
    intro r hr
    exact (mem_key_dropDupByGo c [] df.rows (rowGet r c)).2
      ⟨List.mem_map.2 ⟨r, hr, rfl⟩, List.not_mem_nil _⟩

/-- C9, witness for the amended theorem: the code free table passes through
unchanged, and a code only table with a duplicate row is deduplicated into a
sublist with distinct, complete keys. -/
theorem C9_missing_code_amended_witness :
    ("municipio_cod" ∉ exC9df.cols ∧
      agrupar_por_municipio exC9df "municipio_cod" = exC9df) ∧
    ((agrupar_por_municipio exC9dfW "municipio_cod").rows.Sublist exC9dfW.rows ∧
      ((agrupar_por_municipio exC9dfW "municipio_cod").rows.map
        (fun r => rowGet r "municipio_cod")).Nodup) :=
  ⟨⟨by decide, (C9_missing_code_amended exC9df "municipio_cod").1 (by decide)⟩,
   ⟨((C9_missing_code_amended exC9dfW "municipio_cod").2 (by decide) (by decide)).2.1,
    ((C9_missing_code_amended exC9dfW "municipio_cod").2 (by decide) (by decide)).2.2.1⟩⟩

/-- C7: the match count returned by preparar_codigos equals the number of
rows of the returned joined frame whose total_violencia_domestica attribute
is non missing (zero when that column is absent), and none of the four
transient key columns survives into the returned frame. -/
theorem C7_match_count (gdf df : DFrame) (sc cc : String) :
    (preparar_codigos gdf df sc cc).2 =
      (if "total_violencia_domestica" ∈ (preparar_codigos gdf df sc cc).1.cols then
        (preparar_codigos gdf df sc cc).1.rows.countP
          (fun r => decide (rowGet r "total_violencia_domestica" ≠ Cell.nan))
      else 0) ∧
    ∀ t ∈ TRANSIENT_CODE_COLS, t ∉ (preparar_codigos gdf df sc cc).1.cols := by
  rw [preparar_codigos_eq]
  constructor
  · have hmem : "total_violencia_domestica" ∈
          (dropCols (prepMerged gdf df sc cc) TRANSIENT_CODE_COLS).cols ↔
        "total_violencia_domestica" ∈ (prepMerged gdf df sc cc).cols := by
      show "total_violencia_domestica" ∈ List.filter _ _ ↔ _
      rw [List.mem_filter]
      constructor
      · exact fun h => h.1
      · intro h
        exact ⟨h, by decide⟩
    have hcount : (dropCols (prepMerged gdf df sc cc) TRANSIENT_CODE_COLS).rows.countP
          (fun r => decide (rowGet r "total_violencia_domestica" ≠ Cell.nan)) =
        (prepMerged gdf df sc cc).rows.countP
          (fun r => decide (rowGet r "total_violencia_domestica" ≠ Cell.nan)) := by
      show ((prepMerged gdf df sc cc).rows.map _).countP _ = _
      rw [List.countP_map]
      apply List.countP_congr
      intro r _
      show decide (rowGet (r.filter (fun p => decide (p.1 ∉ TRANSIENT_CODE_COLS)))
            "total_violencia_domestica" ≠ Cell.nan) = true ↔
          decide (rowGet r "total_violencia_domestica" ≠ Cell.nan) = true
      rw [rowGet_filter_of_not_mem r TRANSIENT_CODE_COLS "total_violencia_domestica"
        (by decide)]
    by_cases h : "total_violencia_domestica" ∈ (prepMerged gdf df sc cc).cols
    · rw [if_pos h, if_pos (hmem.2 h), hcount]
    · rw [if_neg h, if_neg (fun hx => h (hmem.1 hx))]
  · intro t ht hmem2
    have := (List.mem_filter.1 hmem2).2
    rw [decide_eq_true_eq] at this
    exact this ht

/-- C8: when either code column is undetected, reconciliation is not fatal
and degrades to the name join; in that fallback, a detected feature name
column together with a municipio_nome table column yields the name join,
while a missing name column on either side yields the fatal no usable join
key error. -/
theorem C8_fallback (gdf df : DFrame)
    (h : detect_code_column gdf.cols = none ∨ csvCodeColOf df = none) :
    (detect_name_column gdf.cols = none → reconcile gdf df = Except.error NO_KEY_MSG) ∧
    (∀ nc, detect_name_column gdf.cols = some nc →
      ("municipio_nome" ∈ df.cols →
        reconcile gdf df = Except.ok (merge_por_nome gdf df nc)) ∧
      ("municipio_nome" ∉ df.cols → reconcile gdf df = Except.error NO_KEY_MSG)) := by
  have hrec : reconcile gdf df =
      (match detect_name_column gdf.cols with
       | none => Except.error NO_KEY_MSG
       | some nc =>
         if "municipio_nome" ∈ df.cols then Except.ok (merge_por_nome gdf df nc)
         else Except.error NO_KEY_MSG) := by
    rcases hc : detect_code_column gdf.cols with _ | sc <;>
      rcases hv : csvCodeColOf df with _ | cc
    · unfold reconcile
      rw [hc, hv]
    · unfold reconcile
      rw [hc, hv]
    · unfold reconcile
      rw [hc, hv]
    · rcases h with h | h
      · rw [h] at hc
        cases hc
      · rw [h] at hv
        cases hv
  refine ⟨?_, ?_⟩
  · intro hn
    rw [hrec, hn]
  · intro nc hn
    refine ⟨?_, ?_⟩
    · intro hm
      rw [hrec, hn]
      exact if_pos hm
    · intro hm
      rw [hrec, hn]
      exact if_neg hm

/-- C8, witness: a feature frame whose only column is NM_MUN has no code
column, and reconciliation with a table carrying municipio_nome lands in the
name join. -/
theorem C8_fallback_witness :
    detect_code_column exC8gdf.cols = none ∧
    reconcile exC8gdf exC8df = Except.ok (merge_por_nome exC8gdf exC8df "NM_MUN") :=
  ⟨by decide,
   ((C8_fallback exC8gdf exC8df (Or.inl (by decide))).2 "NM_MUN" (by decide)).1 (by decide)⟩

/-- C1, counterexample: one feature and two table rows sharing its join key
produce a joined output with two rows, so cardinality is not preserved for
every table. -/
theorem C1_counterexample :
    exC1gdf.rows.length = 1 ∧
    (preparar_codigos exC1gdf exC1df "CD_MUN" "municipio_cod").1.rows.length = 2 := by
  exact ⟨by decide, by decide⟩

/-- C1, amended: for any feature collection of N features, the joined output
has exactly N rows provided each join key matches at most one table row, in
particular whenever the normalized table side keys are pairwise distinct;
this holds for both the code join and the name join.  With duplicate table
keys the left join emits one output row per match. -/
theorem C1_cardinality_amended (gdf df : DFrame) (sc cc snc : String) :
    ((df.rows.map (fun r => normCsvCode (rowGet r cc))).Nodup →
      (preparar_codigos gdf df sc cc).1.rows.length = gdf.rows.length) ∧
    ((df.rows.map (fun r => normalizar_nome (rowGet r "municipio_nome"))).Nodup →
      (merge_por_nome gdf df snc).rows.length = gdf.rows.length) := by
  have hinj : Function.Injective Cell.str := fun a b e => Cell.str.inj e
  constructor
  · intro h
    rw [preparar_codigos_eq]
    show (dropCols (prepMerged gdf df sc cc) TRANSIENT_CODE_COLS).rows.length = _
    rw [length_rows_dropCols]
    unfold prepMerged
    rw [rows_leftMergeOn]
    rw [length_mergeRows_of_nodup]
    · rw [length_rows_setCol, length_rows_setCol]
    · rw [csv_key_of_row df cc]
      have hmm : df.rows.map (fun r => Cell.str (normCsvCode (rowGet r cc))) =
          (df.rows.map (fun r => normCsvCode (rowGet r cc))).map Cell.str := by
        rw [List.map_map]
        rfl
      rw [hmm]
      exact List.Nodup.map hinj h
  · intro h
    rw [merge_por_nome_eq]
    show (dropCols (nomeMerged gdf df snc) ["__nome_norm"]).rows.length = _
    rw [length_rows_dropCols]
    unfold nomeMerged
    rw [rows_leftMergeShared]
    rw [length_mergeSharedRows_of_nodup]
    · rw [length_rows_setCol]
    · rw [nome_key_of_row df "municipio_nome"]
      have hmm : df.rows.map (fun r => Cell.str (normalizar_nome (rowGet r "municipio_nome"))) =
          (df.rows.map (fun r => normalizar_nome (rowGet r "municipio_nome"))).map Cell.str := by
        rw [List.map_map]
        rfl
      rw [hmm]
      exact List.Nodup.map hinj h

/-- C1, witness for the amended theorem: with a single table row both join
paths return exactly one row for the single feature. -/
theorem C1_cardinality_amended_witness :
    ((exC1dfU.rows.map (fun r => normCsvCode (rowGet r "municipio_cod"))).Nodup ∧
      (preparar_codigos exC1gdf exC1dfU "CD_MUN" "municipio_cod").1.rows.length =
        exC1gdf.rows.length) ∧
    ((exC1dfU.rows.map (fun r => normalizar_nome (rowGet r "municipio_nome"))).Nodup ∧
      (merge_por_nome exC1gdf exC1dfU "CD_MUN").rows.length = exC1gdf.rows.length) :=
  ⟨⟨by decide,
    (C1_cardinality_amended exC1gdf exC1dfU "CD_MUN" "municipio_cod" "CD_MUN").1 (by decide)⟩,
   ⟨by decide,
    (C1_cardinality_amended exC1gdf exC1dfU "CD_MUN" "municipio_cod" "CD_MUN").2 (by decide)⟩⟩


/-- C10: for a table carrying the year column and the code column but none of
the configured metric columns, the wide reshaper returns the table unchanged
together with the sorted list of distinct non missing years; the year list is
sorted, duplicate free, and contains exactly the non missing year cells. -/
theorem C10_pivot_noop (df : DFrame)
    (hy : YEAR_COLUMN ∈ df.cols) (hc : "municipio_cod" ∈ df.cols)
    (hm : ∀ m ∈ METRIC_COLUMNS, m ∉ df.cols) :
    pivotar_dados_por_ano df = (df, some (anosDisponiveis df)) ∧
    (anosDisponiveis df).Pairwise (fun a b => cellLeB a b = true) ∧
    (anosDisponiveis df).Nodup ∧
    (∀ y, y ∈ anosDisponiveis df ↔
      y ∈ df.rows.map (fun r => rowGet r YEAR_COLUMN) ∧ y ≠ Cell.nan) := by
  have hfilter : METRIC_COLUMNS.filter (fun m => decide (m ∈ df.cols)) = [] :=
    List.filter_eq_nil_iff.2 (fun m hmem => by simpa using hm m hmem)
  refine ⟨?_, ?_, ?_, ?_⟩
  · unfold pivotar_dados_por_ano
    rw [if_pos ⟨hy, hc⟩]
    simp [hfilter]
  · exact pairwise_sortLe cellLeB cellLeB_total cellLeB_trans _
  · exact (nodup_sortLe _ _).2 (nodup_distinctFirst _)
  · intro y
    unfold anosDisponiveis
    rw [mem_sortLe, mem_distinctFirst, List.mem_filter]
    simp

/-- C10, witness: the metric free table with years 2023 and 2022 passes
through unchanged with the years returned sorted ascending. -/
theorem C10_pivot_noop_witness :
    pivotar_dados_por_ano exC10df = (exC10df, some (anosDisponiveis exC10df)) ∧
    (anosDisponiveis exC10df).Nodup ∧
    anosDisponiveis exC10df = [Cell.num 2022, Cell.num 2023] :=
  ⟨(C10_pivot_noop exC10df (by decide) (by decide) (by decide)).1,
   (C10_pivot_noop exC10df (by decide) (by decide) (by decide)).2.2.1,
   by decide⟩


/-- C6: the single year aggregation groups by the code column with one output
row per distinct code, the code sets of input and output agree, every
aggregated column of an output row equals its configured reducer applied to
the matching group of input rows (mean for mean set metrics, sum for other
numeric columns, first for the municipality name), only the code column and
the aggregation dictionary columns survive, and the concrete two row example
aggregates to taxa_feminicidio 3 and total_violencia_domestica 25. -/
theorem C6_agg (df : DFrame) (c : String)
    (hcols : df.cols.Nodup) (hc : c ∈ df.cols)
    (hnn : ∀ r ∈ df.rows, rowGet r c ≠ Cell.nan)
    (hne : ¬(aggSpec df c).isEmpty = true) :
    (agrupar_por_municipio df c).cols = c :: (aggSpec df c).map Prod.fst ∧
    ((agrupar_por_municipio df c).rows.map (keyOf [c])).Nodup ∧
    (∀ kv, kv ∈ (agrupar_por_municipio df c).rows.map (keyOf [c]) ↔
      kv ∈ df.rows.map (keyOf [c])) ∧
    (∀ ro ∈ (agrupar_por_municipio df c).rows, ∀ a ∈ aggSpec df c,
      rowGet ro a.1 = applyAgg a.2
        ((df.rows.filter (fun r => decide (rowGet r c = rowGet ro c))).map
          (fun r => rowGet r a.1))) ∧
    agrupar_por_municipio exC6df "municipio_cod" =
      { cols := ["municipio_cod", "municipio_nome", "total_violencia_domestica",
                 "taxa_feminicidio"],
        rows := [[("municipio_cod", Cell.str "X"), ("municipio_nome", Cell.str "Xn"),
          ("total_violencia_domestica", Cell.num 25),
          ("taxa_feminicidio", Cell.num 3)]] } := by
  have hagg : agrupar_por_municipio df c = groupbyAgg df [c] (aggSpec df c) := by
    unfold agrupar_por_municipio
    rw [if_pos hc]
    have hemp : (aggSpec df c).isEmpty = false := by
      cases h' : (aggSpec df c).isEmpty
      · rfl
      · exact absurd h' hne
    simp [hemp]
  have hv : df.rows.filter (validKey [c]) = df.rows := by
    apply List.filter_eq_self.2
    intro r hr
    rw [validKey_eq_true_iff]
    intro k hk
    rcases List.mem_cons.1 hk with rfl | hk2
    · exact hnn r hr
    · cases hk2
  have hnames : ((aggSpec df c).map Prod.fst).Nodup :=
    List.Nodup.sublist (aggSpec_names_sublist df c) hcols
  refine ⟨?_, ?_, ?_, ?_, by decide⟩
  · rw [hagg]
    rfl
  · rw [hagg, groupbyAgg_keys df [c] (aggSpec df c) (by simp) hv]
    exact (nodup_sortLe _ _).2 (nodup_distinctFirst _)
  · intro kv
    rw [hagg, groupbyAgg_keys df [c] (aggSpec df c) (by simp) hv,
      mem_sortLe, mem_distinctFirst]
  · intro ro hro a ha
    rw [hagg, groupbyAgg_rows df [c] (aggSpec df c) hv] at hro
    rcases List.mem_map.1 hro with ⟨kv, hkv, rfl⟩
    have hkv2 : kv ∈ df.rows.map (keyOf [c]) :=
      (mem_distinctFirst _ _).1 ((mem_sortLe _ _ _).1 hkv)
    rcases List.mem_map.1 hkv2 with ⟨r0, _, hkeq⟩
    have hkv3 : kv = [rowGet r0 c] := hkeq.symm
    subst hkv3
    have hane : a.1 ≠ c := (aggSpec_mem df c a ha).2
    have hgetc : rowGet ([c].zip [rowGet r0 c] ++ (aggSpec df c).map
        (fun a => (a.1, applyAgg a.2
          ((df.rows.filter (fun r => decide (keyOf [c] r = [rowGet r0 c]))).map
            (fun r => rowGet r a.1))))) c = rowGet r0 c := by
      rw [List.zip_cons_cons]
      rw [List.cons_append, rowGet_cons]
      simp
    rw [hgetc]
    have hgeta : rowGet ([c].zip [rowGet r0 c] ++ (aggSpec df c).map
        (fun a => (a.1, applyAgg a.2
          ((df.rows.filter (fun r => decide (keyOf [c] r = [rowGet r0 c]))).map
            (fun r => rowGet r a.1))))) a.1 =
        applyAgg a.2
          ((df.rows.filter (fun r => decide (keyOf [c] r = [rowGet r0 c]))).map
            (fun r => rowGet r a.1)) := by
      rw [rowGet_zip_not_mem [c] [rowGet r0 c] _ a.1 ?_]
      · exact rowGet_map_entries (aggSpec df c) _ a hnames ha
      · intro hm
        rcases List.mem_cons.1 hm with e | e
        · exact hane e
        · cases e
    rw [hgeta]
    have hfeq : df.rows.filter (fun r => decide (keyOf [c] r = [rowGet r0 c])) =
        df.rows.filter (fun r => decide (rowGet r c = rowGet r0 c)) := by
      apply List.filter_congr
      intro r _
      apply decide_eq_decide.2
      constructor
      · intro e
        exact (List.cons.injEq _ _ _ _ ▸ e).1
      · intro e
        show [rowGet r c] = [rowGet r0 c]
        rw [e]
    rw [hfeq]

/-- C6, witness for the reducer statement at the concrete two row example:
the mean reduced taxa_feminicidio cell of the aggregated row equals the mean
reducer applied to its group. -/
theorem C6_agg_witness :
    rowGet exC6row "taxa_feminicidio" = applyAgg AggFn.mean
      ((exC6df.rows.filter
        (fun r => decide (rowGet r "municipio_cod" = rowGet exC6row "municipio_cod"))).map
        (fun r => rowGet r "taxa_feminicidio")) :=
  (C6_agg exC6df "municipio_cod" (by decide) (by decide) (by decide)
    (by decide)).2.2.2.1 exC6row (by decide) ("taxa_feminicidio", AggFn.mean) (by decide)


/-- C5, counterexample: with two metrics over two years the pivot columns are
grouped by year (the result of sort_index on the year level), not by metric
as the claim asserts: the actual order interleaves the metrics. -/
theorem C5_counterexample :
    (pivotar_dados_por_ano exC5two).1.cols =
      ["municipio_cod", "feminicidios_2022", "taxa_feminicidio_2022",
       "feminicidios_2023", "taxa_feminicidio_2023"] ∧
    (pivotar_dados_por_ano exC5two).1.cols ≠
      ["municipio_cod", "feminicidios_2022", "feminicidios_2023",
       "taxa_feminicidio_2022", "taxa_feminicidio_2023"] := by
  exact ⟨by decide, by decide⟩

/-- C5, amended: for a long format table carrying the year column, the code
column, at least one configured metric column, no missing identifier cells
and numeric metric cells, the wide pivot has exactly one row per distinct
municipality key of the input (keys are pairwise distinct and the key sets
of input and output coincide), its value columns contain one column named
metric_year for every configured metric present and every distinct year, the
number of columns is exactly the index width plus metrics times years, and
the columns are ordered by metric name within each year group (year major),
as witnessed by the concrete single metric example of the claim. -/
theorem C5_pivot_amended (df : DFrame)
    (hy : YEAR_COLUMN ∈ df.cols) (hcod : "municipio_cod" ∈ df.cols)
    (hm : ¬(METRIC_COLUMNS.filter (fun m => decide (m ∈ df.cols))).isEmpty = true)
    (hnnc : ∀ r ∈ df.rows, rowGet r "municipio_cod" ≠ Cell.nan)
    (hnnn : "municipio_nome" ∈ df.cols →
      ∀ r ∈ df.rows, rowGet r "municipio_nome" ≠ Cell.nan)
    (hnny : ∀ r ∈ df.rows, rowGet r YEAR_COLUMN ≠ Cell.nan)
    (hmet : ∀ r ∈ df.rows, ∀ m ∈ METRIC_COLUMNS.filter (fun m => decide (m ∈ df.cols)),
      (rowGet r m).isNum = true) :
    ((pivotar_dados_por_ano df).1.rows.map (keyOf (pivotIndexCols df))).Nodup ∧
    (∀ kv, kv ∈ (pivotar_dados_por_ano df).1.rows.map (keyOf (pivotIndexCols df)) ↔
      kv ∈ df.rows.map (keyOf (pivotIndexCols df))) ∧
    (∀ m ∈ METRIC_COLUMNS.filter (fun m => decide (m ∈ df.cols)),
      ∀ y ∈ anosDisponiveis df,
        pivotColName (m, y) ∈ (pivotar_dados_por_ano df).1.cols) ∧
    ((pivotar_dados_por_ano df).1.cols.length =
      (pivotIndexCols df).length +
        (METRIC_COLUMNS.filter (fun m => decide (m ∈ df.cols))).length *
          (anosDisponiveis df).length) ∧
    (pivotar_dados_por_ano exC5df).1 =
      { cols := ["municipio_cod", "municipio_nome", "feminicidios_2022",
                 "feminicidios_2023"],
        rows := [[("municipio_cod", Cell.str "310620"), ("municipio_nome", Cell.str "X"),
          ("feminicidios_2022", Cell.num 3), ("feminicidios_2023", Cell.num 5)]] } := by
  have hemp : (METRIC_COLUMNS.filter (fun m => decide (m ∈ df.cols))).isEmpty = false := by
    cases h' : (METRIC_COLUMNS.filter (fun m => decide (m ∈ df.cols))).isEmpty
    · rfl
    · exact absurd h' hm
  have hout : (pivotar_dados_por_ano df).1 =
      pivotSortedRenamed (groupbyAgg df (pivotIndexCols df ++ [YEAR_COLUMN])
        ((METRIC_COLUMNS.filter (fun m => decide (m ∈ df.cols))).map
          (fun m => (m, if m ∈ METRIC_MEAN then AggFn.mean else AggFn.sum))))
        (pivotIndexCols df) YEAR_COLUMN
        (METRIC_COLUMNS.filter (fun m => decide (m ∈ df.cols))) := by
    unfold pivotar_dados_por_ano
    rw [if_pos ⟨hy, hcod⟩]
    simp [hemp]
  have hndg : (pivotIndexCols df ++ [YEAR_COLUMN]).Nodup := by
    unfold pivotIndexCols
    by_cases hn : "municipio_nome" ∈ df.cols
    · rw [if_pos hn]
      decide
    · rw [if_neg hn]
      decide
  have hvAll : df.rows.filter (validKey (pivotIndexCols df ++ [YEAR_COLUMN])) =
      df.rows := by
    apply List.filter_eq_self.2
    intro r hr
    rw [validKey_eq_true_iff]
    intro k hk
    rcases List.mem_append.1 hk with hk1 | hk2
    · unfold pivotIndexCols at hk1
      rcases List.mem_cons.1 hk1 with rfl | hk3
      · exact hnnc r hr
      · by_cases hn : "municipio_nome" ∈ df.cols
        · rw [if_pos hn] at hk3
          rw [List.mem_singleton.1 hk3]
          exact hnnn hn r hr
        · rw [if_neg hn] at hk3
          cases hk3
    · rw [List.mem_singleton.1 hk2]
      exact hnny r hr
  have hmnd : (METRIC_COLUMNS.filter (fun m => decide (m ∈ df.cols))).Nodup :=
    List.Nodup.filter _ (by decide)
  have hdisj : ∀ m ∈ METRIC_COLUMNS.filter (fun m => decide (m ∈ df.cols)),
      m ∉ pivotIndexCols df ++ [YEAR_COLUMN] := by
    intro m hmm
    have hmc : m ∈ METRIC_COLUMNS := (List.mem_filter.1 hmm).1
    intro hk
    rcases List.mem_append.1 hk with hk1 | hk2
    · unfold pivotIndexCols at hk1
      rcases List.mem_cons.1 hk1 with rfl | hk3
      · exact absurd hmc (by decide)
      · by_cases hn : "municipio_nome" ∈ df.cols
        · rw [if_pos hn] at hk3
          rw [List.mem_singleton.1 hk3] at hmc
          exact absurd hmc (by decide)
        · rw [if_neg hn] at hk3
          cases hk3
    · rw [List.mem_singleton.1 hk2] at hmc
      exact absurd hmc (by decide)
  rcases pivot_chain_spec df (pivotIndexCols df)
      (METRIC_COLUMNS.filter (fun m => decide (m ∈ df.cols))) _ rfl hndg hvAll hmnd
      hdisj hmet hnny with ⟨hc1, hc2, hc3, hc4⟩
  refine ⟨by rw [hout]; exact hc1, fun kv => by rw [hout]; exact hc2 kv,
    fun m hmm y hyy => by rw [hout]; exact hc3 m hmm y hyy,
    by rw [hout]; exact hc4, by decide⟩

/-- C5, witness for the amended theorem at the concrete two year single
metric table of the claim. -/
theorem C5_pivot_amended_witness :
    ((pivotar_dados_por_ano exC5df).1.rows.map (keyOf (pivotIndexCols exC5df))).Nodup ∧
    ((pivotar_dados_por_ano exC5df).1.cols.length =
      (pivotIndexCols exC5df).length +
        (METRIC_COLUMNS.filter (fun m => decide (m ∈ exC5df.cols))).length *
          (anosDisponiveis exC5df).length) :=
  ⟨(C5_pivot_amended exC5df (by decide) (by decide) (by decide) (by decide)
      (fun _ => by decide) (by decide) (by decide)).1,
   (C5_pivot_amended exC5df (by decide) (by decide) (by decide) (by decide)
      (fun _ => by decide) (by decide) (by decide)).2.2.2.1⟩


end TPIBD
